import Mathlib

/-!
Shallow embedding of the `unlock_schedule` core (interval algebra, grid
builder, naive weekly-template builder, greedy cover optimizer, verifier,
and the service layer gluing them together), together with theorems that
settle the specification claims against this embedding.

Modelling conventions:

* A timezone-aware `datetime` is modelled as an `Int`: the number of minutes
  since a fixed local epoch, chosen to be Sunday 2025-01-05 00:00 local time.
  Local midnight boundaries are exactly the multiples of 1440, `dt.date()` is
  floor-division by 1440, and `dt.hour * 60 + dt.minute` is the nonnegative
  remainder modulo 1440.  All datetimes handled by the core carry the single
  configured timezone, so a fixed-offset model is faithful; the library's
  `tzinfo is None` guard can never fire inside this model and is omitted.
* Python's `datetime.weekday()` (Mon=0..Sun=6) becomes `pyWeekday`; with the
  chosen epoch, day number 0 is a Sunday, so `pyWeekday d = (d - 1) mod 7`.
* Rendered `"HHMM"` clock strings are modelled by their numeric code
  `h * 100 + m` (an `Int`).  Both producers (`strftime("%H%M")` and
  `min_to_hhmm`) emit zero-padded four-digit strings with `h ≤ 23`, so string
  equality and lexicographic string order coincide with equality and order of
  the numeric codes.
* `SystemExit` / `ValueError` / `TypeError` become an `Except PyError`
  result; the message payloads that matter to the claims (the window count
  and window list of the naive capacity error, the mismatch tuples of the
  verifier) are carried structurally.
* Python `set`s whose iteration order is never observed (the optimizer's
  `remaining`, `cover`, `contributing_days`) are modelled as duplicate-free
  lists built in a deterministic order; only membership, emptiness and
  cardinality of these sets are consumed by the source code.
-/

namespace UnlockSchedule

/-- Minutes within the day of a model datetime: `dt.hour * 60 + dt.minute`. -/
def tod (t : Int) : Int := t.emod 1440

/-- The date of a model datetime, as a day number: `dt.date()`. -/
def dateOf (t : Int) : Int := t.fdiv 1440

/-- Python's `dt.weekday()` (Mon=0..Sat=5, Sun=6); epoch day 0 is a Sunday. -/
def pyWeekday (t : Int) : Int := (dateOf t - 1).emod 7

/-- Embeds `template.hms_day_index`: convert to HMS day index, Sun=0..Sat=6. -/
def hms_day_index (t : Int) : Int := (pyWeekday t + 1).emod 7

/-- Embeds `models.Interval`: an immutable `[start, end)` span tagged with sources. -/
structure Interval where
  start : Int
  end_ : Int
  sources : List String
deriving DecidableEq, Repr

/-- The scan behind `tuple(dict.fromkeys(xs))`: keep the elements not yet
seen, in order of first occurrence. -/
def pyDedupGo {α : Type} [DecidableEq α] : List α → List α → List α
  | _, [] => []
  | seen, x :: xs =>
    if x ∈ seen then pyDedupGo seen xs else x :: pyDedupGo (x :: seen) xs

/-- Embeds `tuple(dict.fromkeys(xs))`: de-duplicate keeping the first occurrence. -/
def pyDedup {α : Type} [DecidableEq α] (l : List α) : List α := pyDedupGo [] l

/-- Sort key used by `merge_intervals`: lexicographic on `(start, end)`. -/
def intervalLe (a b : Interval) : Prop :=
  a.start < b.start ∨ (a.start = b.start ∧ a.end_ ≤ b.end_)

instance : DecidableRel intervalLe := fun _ _ =>
  inferInstanceAs (Decidable (_ ∨ _))

/-- The `overlaps` test of `merge_intervals`:
`nxt.start <= cur.end if merge_touching else nxt.start < cur.end`. -/
def overlapsB (merge_touching : Bool) (cur nxt : Interval) : Bool :=
  if merge_touching then decide (nxt.start ≤ cur.end_)
  else decide (nxt.start < cur.end_)

/-- The absorbing step of `merge_intervals`: extend `cur` by `nxt`. -/
def absorb (cur nxt : Interval) : Interval :=
  { start := cur.start
    end_ := max cur.end_ nxt.end_
    sources := pyDedup (cur.sources ++ nxt.sources) }

/-- The left-to-right scan of `merge_intervals` over the sorted tail. -/
def mergeScan (merge_touching : Bool) : Interval → List Interval → List Interval
  | cur, [] => [cur]
  | cur, nxt :: rest =>
    if overlapsB merge_touching cur nxt then
      mergeScan merge_touching (absorb cur nxt) rest
    else
      cur :: mergeScan merge_touching nxt rest

/-- Embeds `intervals.merge_intervals`. -/
def merge_intervals (intervals : List Interval) (merge_touching : Bool := true) :
    List Interval :=
  match List.insertionSort intervalLe intervals with
  | [] => []
  | cur :: rest => mergeScan merge_touching cur rest

/-- Embeds `intervals.apply_padding` (the three-parameter version in
`core/schedule/intervals.py`). -/
def apply_padding (interval : Interval) (before_min after_min : Int) : Interval :=
  { start := interval.start - before_min
    end_ := interval.end_ + after_min
    sources := interval.sources }

/-- The midnight-splitting loop of `split_interval_by_day`; the counter is
the number of remaining iterations of
`while cur_start.date() < cur_end.date()`. -/
def splitGo (src : List String) : Nat → Int → Int → List Interval
  | 0, cur_start, cur_end => [⟨cur_start, cur_end, src⟩]
  | n + 1, cur_start, cur_end =>
    let next_midnight := (dateOf cur_start + 1) * 1440
    ⟨cur_start, next_midnight, src⟩ :: splitGo src n next_midnight cur_end

/-- Embeds `intervals.split_interval_by_day`: split at midnight boundaries into
per-day segments.  The while loop runs once per day boundary between
`start.date()` and `end.date()`. -/
def split_interval_by_day (iv : Interval) : List Interval :=
  splitGo iv.sources (dateOf iv.end_ - dateOf iv.start).toNat iv.start iv.end_

/-- Embeds `template.to_hhmm`: `dt.strftime("%H%M")`, as the numeric code
`hour * 100 + minute` of the rendered string. -/
def to_hhmm (t : Int) : Int := (tod t / 60) * 100 + tod t % 60

/-- Embeds `optimize.min_to_hhmm`: render a minute offset, with `1440 ↦ "0000"`. -/
def min_to_hhmm (m : Int) : Int :=
  if m = 1440 then 0 else (m / 60) * 100 + m % 60

/-- The `hhmm_to_min` helper inside `verify_rows_match_required`:
`int(s[:2]) * 60 + int(s[2:])` on a four-digit code. -/
def hhmm_to_min (code : Int) : Int := (code / 100) * 60 + code % 100

/-- One HMS template row.  `start`/`end_` hold the numeric codes of the
rendered `Start`/`End` strings; the seven day flags and `holidays` are the
0/1 integers stored in the row dict.  Day-name keys are modelled
positionally (`sun` is the flag for `day_names[0]`, and so on). -/
structure Row where
  interval : Int
  start : Int
  end_ : Int
  sun : Int
  mon : Int
  tue : Int
  wed : Int
  thu : Int
  fri : Int
  sat : Int
  holidays : Int
deriving DecidableEq, Repr

/-- An unused padding row: `Start "0000"`, `End "0000"`, no days. -/
def placeholderRow (idx : Int) : Row :=
  ⟨idx, 0, 0, 0, 0, 0, 0, 0, 0, 0, 0⟩

/-- The trailing `while len(rows) < max_intervals` padding loop shared by
both builders: `k` placeholder rows with indices `i, i+1, ...`. -/
def padRows : Nat → Int → List Row
  | 0, _ => []
  | k + 1, i => placeholderRow i :: padRows k (i + 1)

/-- The terminating-error model of the exceptions the core raises. -/
inductive PyError where
  /-- `ValueError` (malformed `day_names`), carrying the offending length. -/
  | valueError (got : Nat)
  /-- `TypeError`: a call's arguments do not match the callee's signature. -/
  | typeError (msg : String)
  /-- `SystemExit` of the naive builder: this week requires `needed` distinct
  time windows (listed) but HMS supports only the budget. -/
  | naiveCapacity (needed : Nat) (windows : List (Int × Int))
  /-- `SystemExit`: the optimizer found no safe interval covering the
  remaining required minutes. -/
  | optNoCandidate
  /-- `SystemExit`: the optimizer needs more than `budget` HMS intervals. -/
  | optCapacity (budget : Nat)
  /-- `SystemExit(2)` of the verifier, carrying the collected
  `(day, minute, required, simulated)` mismatch tuples. -/
  | verifyMismatch (mismatches : List (Int × Int × Bool × Bool))
deriving DecidableEq, Repr

deriving instance DecidableEq for Except

/-- The per-day-split `(startHHMM, endHHMM)` keys of `build_weekly_template`,
in first-encounter order and with duplicates; zero-length
(`start_h == end_h`) segments are discarded. -/
def naiveSegKeys (intervals : List Interval) : List (Int × Int) :=
  intervals.flatMap fun iv =>
    (split_interval_by_day iv).filterMap fun seg =>
      let start_h := to_hhmm seg.start
      let end_h := to_hhmm seg.end_
      if start_h = end_h then none else some (start_h, end_h)

/-- Lexicographic order on `(startHHMM, endHHMM)` keys, matching Python's
sort of `(start_str, end_str)` string pairs. -/
def keyLe (a b : Int × Int) : Prop :=
  a.1 < b.1 ∨ (a.1 = b.1 ∧ a.2 ≤ b.2)

instance : DecidableRel keyLe := fun _ _ => inferInstanceAs (Decidable (_ ∨ _))

/-- Embeds `sorted(grouped.keys())`: the distinct keys, sorted. -/
def naiveSortedKeys (intervals : List Interval) : List (Int × Int) :=
  List.insertionSort keyLe (pyDedup (naiveSegKeys intervals))

/-- The day flag `grouped[key][day_names[d]]` of the naive builder: 1 iff
some day-split segment with this exact key starts on HMS day `d`. -/
def naiveDayFlag (intervals : List Interval) (key : Int × Int) (d : Int) : Int :=
  if intervals.any fun iv =>
      (split_interval_by_day iv).any fun seg =>
        decide (to_hhmm seg.start = key.1) &&
        decide (to_hhmm seg.end_ = key.2) &&
        !decide (to_hhmm seg.start = to_hhmm seg.end_) &&
        decide (hms_day_index seg.start = d)
  then 1 else 0

/-- The numbered real rows of the naive builder, one per sorted key. -/
def naiveRows (intervals : List Interval) (i : Int) :
    List (Int × Int) → List Row
  | [] => []
  | k :: ks =>
    { interval := i
      start := k.1
      end_ := k.2
      sun := naiveDayFlag intervals k 0
      mon := naiveDayFlag intervals k 1
      tue := naiveDayFlag intervals k 2
      wed := naiveDayFlag intervals k 3
      thu := naiveDayFlag intervals k 4
      fri := naiveDayFlag intervals k 5
      sat := naiveDayFlag intervals k 6
      holidays := 0 } :: naiveRows intervals (i + 1) ks

/-- Embeds `template.build_weekly_template`: group day-split segments by identical
`(startHHMM, endHHMM)`, set day flags, raise a capacity `SystemExit` when the
number of distinct groups exceeds `max_intervals`, and pad to exactly
`max_intervals` rows. -/
def build_weekly_template (intervals : List Interval) (day_names : List String)
    (max_intervals : Nat) : Except PyError (List Row) :=
  if day_names.length ≠ 7 then .error (.valueError day_names.length)
  else
    let keys_sorted := naiveSortedKeys intervals
    if keys_sorted.length > max_intervals then
      .error (.naiveCapacity keys_sorted.length keys_sorted)
    else
      .ok (naiveRows intervals 1 keys_sorted ++
        padRows (max_intervals - keys_sorted.length) (keys_sorted.length + 1))

/-- A required-unlock grid: `grid d m` is the cell `grid[d][m]`. -/
def Grid : Type := Int → Int → Bool

/-- Embeds `verify.build_required_grid`: `grid[d][m] = True` iff some iteration of
the marking loop — one per day-split segment of an input interval — sets it.
The segment's end minute is promoted to 1440 when the segment ends exactly at
midnight of a later date, and the range is clamped to `[0, 1440]`. -/
def build_required_grid (intervals : List Interval) : Grid := fun d m =>
  intervals.any fun iv =>
    (split_interval_by_day iv).any fun seg =>
      let s0 := tod seg.start
      let e0 :=
        if tod seg.end_ = 0 ∧ dateOf seg.end_ ≠ dateOf seg.start then 1440
        else tod seg.end_
      let s := max 0 (min 1440 s0)
      let e := max 0 (min 1440 e0)
      decide (hms_day_index seg.start = d) && decide (s ≤ m) &&
        decide (m < e) && decide (m < 1440)

/-- The `day_enabled` helper of the verifier, including Python's truthiness
of the integer day flags. -/
def day_enabled (r : Row) (d : Int) : Bool :=
  (decide (d = 0) && !decide (r.sun = 0)) ||
  (decide (d = 1) && !decide (r.mon = 0)) ||
  (decide (d = 2) && !decide (r.tue = 0)) ||
  (decide (d = 3) && !decide (r.wed = 0)) ||
  (decide (d = 4) && !decide (r.thu = 0)) ||
  (decide (d = 5) && !decide (r.fri = 0)) ||
  (decide (d = 6) && !decide (r.sat = 0))

/-- The OR-simulated grid the verifier rebuilds from the rows: rows with
`Start == End == "0000"` are skipped, an end of `"0000"` otherwise means
end-of-day (1440), and each enabled day contributes
`[start, min(end, 1440))`. -/
def simGrid (rows : List Row) : Grid := fun d m =>
  rows.any fun r =>
    if r.start = 0 ∧ r.end_ = 0 then false
    else
      let start := hhmm_to_min r.start
      let e := hhmm_to_min r.end_
      let e := if e = 0 then 1440 else e
      day_enabled r d && decide (start ≤ m) && decide (m < min e 1440)

/-- The verifier's cell scan order: days 0..6, minutes 0..1439. -/
def cellList : List (Int × Int) :=
  (List.range 7).flatMap fun d =>
    (List.range 1440).map fun (m : Nat) => ((d : Int), (m : Int))

/-- The mismatch tuples the verifier collects; the double `break` at 20
mismatches truncates the scan-ordered list to its first 20 entries. -/
def verifyMismatches (rows : List Row) (required : Grid) :
    List (Int × Int × Bool × Bool) :=
  ((cellList.filter fun c => simGrid rows c.1 c.2 != required c.1 c.2).map
    fun c => (c.1, c.2, required c.1 c.2, simGrid rows c.1 c.2)).take 20

/-- Embeds `verify.verify_rows_match_required`: re-simulate the rows and
`SystemExit(2)` on any cell mismatch with the required grid. -/
def verify_rows_match_required (rows : List Row) (required : Grid) :
    Except PyError Unit :=
  match verifyMismatches rows required with
  | [] => .ok ()
  | ms => .error (.verifyMismatch ms)

/-- Membership in `run_starts[d]` of `optimize._run_boundary_sets`: minute
`s` starts a maximal required run on day `d`. -/
def isRunStart (g : Grid) (d s : Int) : Bool :=
  decide (0 ≤ s) && decide (s < 1440) && g d s &&
    (decide (s = 0) || !g d (s - 1))

/-- Membership in `run_ends[d]` of `optimize._run_boundary_sets`: minute `e`
(in `1..1440`) ends a maximal required run on day `d`. -/
def isRunEnd (g : Grid) (d e : Int) : Bool :=
  decide (1 ≤ e) && decide (e ≤ 1440) && g d (e - 1) &&
    (decide (e = 1440) || !g d e)

/-- Embeds `optimize.extract_boundaries_from_grid`: the sorted set
`{0, 1440} ∪ run starts ∪ run ends` over all days, as an ascending list. -/
def extract_boundaries (g : Grid) : List Int :=
  ((List.range 1441).map fun (n : Nat) => (n : Int)).filter fun b =>
    decide (b = 0) || decide (b = 1440) ||
      (List.range 7).any fun (d : Nat) =>
        isRunStart g (d : Int) b || isRunEnd g (d : Int) b

/-- The double loop of `candidate_intervals`: all `(bs[i], bs[j])` with
`i < j` and `e > s`, in generation order. -/
def candPairs : List Int → List (Int × Int)
  | [] => []
  | x :: xs => (xs.filterMap fun y => if x < y then some (x, y) else none) ++ candPairs xs

/-- The candidate sort key order `(-(e - s), s, e)`, lexicographically. -/
def candLe (a b : Int × Int) : Prop :=
  b.2 - b.1 < a.2 - a.1 ∨
    (a.2 - a.1 = b.2 - b.1 ∧ (a.1 < b.1 ∨ (a.1 = b.1 ∧ a.2 ≤ b.2)))

instance : DecidableRel candLe := fun _ _ =>
  inferInstanceAs (Decidable (_ ∨ _))

/-- Embeds `optimize.candidate_intervals`. -/
def candidate_intervals (bs : List Int) : List (Int × Int) :=
  List.insertionSort candLe (candPairs bs)

/-- Embeds `range(s, e)` over model minutes. -/
def intRange (s e : Int) : List Int :=
  (List.range (e - s).toNat).map fun (i : Nat) => s + (i : Int)

/-- The optimizer's `day_is_fully_covered`: candidate `(s, e)` may be applied
to day `d` only if every minute of `[s, min(e, 1440))` is required. -/
def day_is_fully_covered (g : Grid) (d s e : Int) : Bool :=
  (intRange s (min e 1440)).all fun m => g d m

/-- Embeds `eligible_days` of the greedy loop body. -/
def eligibleDays (g : Grid) (s e : Int) : List Int :=
  ((List.range 7).map fun (d : Nat) => (d : Int)).filter fun d =>
    day_is_fully_covered g d s e

/-- The `cover` set of a candidate: still-uncovered required cells it covers,
counting only eligible days. -/
def coverOf (g : Grid) (remaining : List (Int × Int)) (s e : Int) :
    List (Int × Int) :=
  (eligibleDays g s e).flatMap fun d =>
    (intRange s (min e 1440)).filterMap fun m =>
      if (d, m) ∈ remaining then some (d, m) else none

/-- Embeds `contributing_days`: eligible days owning at least one covered cell. -/
def contribDays (g : Grid) (remaining : List (Int × Int)) (s e : Int) :
    List Int :=
  (eligibleDays g s e).filter fun d =>
    (coverOf g remaining s e).any fun x => decide (x.1 = d)

/-- The alignment bonus: contributing days whose run boundaries the candidate
edges land on exactly. -/
def alignmentOf (g : Grid) (days : List Int) (s e : Int) : Int :=
  days.foldl
    (fun a d =>
      a + (if isRunStart g d s then 1 else 0) + (if isRunEnd g d e then 1 else 0))
    0

/-- The data the greedy loop keeps for the best candidate so far. -/
structure Best where
  s : Int
  e : Int
  days : List Int
  cover : List (Int × Int)
  alignment : Int

/-- Facts true of every candidate evaluation the greedy loop can select,
used both for termination and for the safety invariant. -/
def BestInv (g : Grid) (remaining : List (Int × Int)) (b : Best) : Prop :=
  b.cover ≠ [] ∧ (∀ x ∈ b.cover, x ∈ remaining) ∧
    (∀ d ∈ b.days, day_is_fully_covered g d b.s b.e = true) ∧
    (∀ d ∈ b.days, ∃ m, (d, m) ∈ b.cover) ∧
    (∀ x ∈ b.cover, b.s ≤ x.2 ∧ x.2 < min b.e 1440) ∧ b.s < b.e

/-- Evaluate one candidate inside the greedy loop: `None` mirrors the three
`continue`s (degenerate window, no eligible day, empty cover). -/
def evalCand (g : Grid) (remaining : List (Int × Int)) (c : Int × Int) :
    Option { b : Best // BestInv g remaining b } :=
  if hse : c.2 ≤ c.1 then none
  else if helig : eligibleDays g c.1 c.2 = [] then none
  else if hcov : coverOf g remaining c.1 c.2 = [] then none
  else
    some ⟨{ s := c.1, e := c.2
            days := contribDays g remaining c.1 c.2
            cover := coverOf g remaining c.1 c.2
            alignment := alignmentOf g (contribDays g remaining c.1 c.2) c.1 c.2 },
      by
        refine ⟨hcov, ?_, ?_, ?_, ?_, show c.1 < c.2 by omega⟩
        · intro x hx
          simp only [coverOf, List.mem_flatMap, List.mem_filterMap] at hx
          obtain ⟨d, _, m, _, hsome⟩ := hx
          by_cases hmem : (d, m) ∈ remaining
          · simp only [if_pos hmem, Option.some.injEq] at hsome
            exact hsome ▸ hmem
          · simp [if_neg hmem] at hsome
        · intro d hd
          show day_is_fully_covered g d c.1 c.2 = true
          have h1 : d ∈ eligibleDays g c.1 c.2 :=
            (List.mem_filter.mp (by simpa only [contribDays] using hd)).1
          simp only [eligibleDays] at h1
          exact (List.mem_filter.mp h1).2
        · intro d hd
          have hany := List.of_mem_filter (by simpa only [contribDays] using hd)
          obtain ⟨x, hx, hxd⟩ := List.any_eq_true.mp hany
          exact ⟨x.2, by rwa [show ((d : Int), x.2) = x from
            Prod.ext (of_decide_eq_true hxd).symm rfl]⟩
        · intro x hx
          simp only [coverOf, List.mem_flatMap, List.mem_filterMap] at hx
          obtain ⟨d, _, m, hm, hsome⟩ := hx
          have hxdm : x = (d, m) := by
            by_cases hmem : (d, m) ∈ remaining
            · simp only [if_pos hmem, Option.some.injEq] at hsome
              exact hsome.symm
            · simp [if_neg hmem] at hsome
          subst hxdm
          simp only [intRange, List.mem_map, List.mem_range] at hm
          obtain ⟨i, hi, rfl⟩ := hm
          dsimp only
          omega⟩

/-- The greedy score `(alignment, len(cover), e - s, -s)`. -/
def score (b : Best) : Int × Nat × Int × Int :=
  (b.alignment, b.cover.length, b.e - b.s, -b.s)

/-- Strict lexicographic comparison of greedy scores (`score > best_score`). -/
def scoreGT (x y : Int × Nat × Int × Int) : Bool :=
  decide (y.1 < x.1) ||
    (decide (x.1 = y.1) &&
      (decide (y.2.1 < x.2.1) ||
        (decide (x.2.1 = y.2.1) &&
          (decide (y.2.2.1 < x.2.2.1) ||
            (decide (x.2.2.1 = y.2.2.1) && decide (y.2.2.2 < x.2.2.2))))))

/-- The candidate scan of one greedy iteration: first eligible candidate is
taken, later ones replace it only on a strictly greater score. -/
def pickBest (g : Grid) (remaining : List (Int × Int))
    (cands : List (Int × Int)) : Option { b : Best // BestInv g remaining b } :=
  cands.foldl
    (fun acc c =>
      match evalCand g remaining c with
      | none => acc
      | some b =>
        match acc with
        | none => some b
        | some a => if scoreGT (score b.1) (score a.1) then some b else some a)
    none

/-- The greedy selection loop of `build_weekly_template_optimized`:
`while remaining: ...`.  Raises when no candidate covers anything, or when
the chosen-rule count exceeds the budget.  The loop variant is the size of
`remaining`: every selected candidate removes at least one still-uncovered
cell (`BestInv`), so calling with `fuel = remaining.length` can never reach
the fuel-exhausted branch; the branch exists only to make the recursion
structural, and `greedyLoop_fuel_irrelevant` below proves it dead for every
sufficient fuel. -/
def greedyLoop (g : Grid) (cands : List (Int × Int)) (max_intervals : Nat) :
    Nat → List (Int × Int) → List (Int × Int × List Int) →
      Except PyError (List (Int × Int × List Int))
  | fuel, remaining, chosen =>
    if remaining = [] then .ok chosen
    else
      match fuel with
      | 0 => .error .optNoCandidate
      | fuel + 1 =>
        match pickBest g remaining cands with
        | none => .error .optNoCandidate
        | some b =>
          if (chosen ++ [(b.1.s, b.1.e, b.1.days)]).length > max_intervals then
            .error (.optCapacity max_intervals)
          else
            greedyLoop g cands max_intervals fuel
              (remaining.filter fun x => !decide (x ∈ b.1.cover))
              (chosen ++ [(b.1.s, b.1.e, b.1.days)])

/-- Render one chosen rule per row, numbering from `i`. -/
def renderChosen (i : Int) : List (Int × Int × List Int) → List Row
  | [] => []
  | (s, e, days) :: rest =>
    { interval := i
      start := min_to_hhmm s
      end_ := min_to_hhmm e
      sun := if 0 ∈ days then 1 else 0
      mon := if 1 ∈ days then 1 else 0
      tue := if 2 ∈ days then 1 else 0
      wed := if 3 ∈ days then 1 else 0
      thu := if 4 ∈ days then 1 else 0
      fri := if 5 ∈ days then 1 else 0
      sat := if 6 ∈ days then 1 else 0
      holidays := 0 } :: renderChosen (i + 1) rest

/-- Row presentation order `(r["Start"], r["End"])`, lexicographic. -/
def rowLe (a b : Row) : Prop :=
  a.start < b.start ∨ (a.start = b.start ∧ a.end_ ≤ b.end_)

instance : DecidableRel rowLe := fun _ _ => inferInstanceAs (Decidable (_ ∨ _))

/-- Re-assign `Interval` indices `i, i+1, ...` after sorting. -/
def reindexRows (i : Int) : List Row → List Row
  | [] => []
  | r :: rs => { r with interval := i } :: reindexRows (i + 1) rs

/-- Embeds `optimize.build_weekly_template_optimized`: the greedy cover optimizer.
An all-false required grid short-circuits to a full table of placeholder
rows; otherwise the greedy loop's rules are rendered, sorted, re-indexed and
padded to exactly `max_intervals` rows. -/
def build_weekly_template_optimized (intervals : List Interval)
    (max_intervals : Nat) : Except PyError (List Row) :=
  let grid := build_required_grid intervals
  let remaining := cellList.filter fun c => grid c.1 c.2
  if remaining = [] then .ok (padRows max_intervals 1)
  else
    match greedyLoop grid (candidate_intervals (extract_boundaries grid))
        max_intervals remaining.length remaining [] with
    | .error err => .error err
    | .ok chosen =>
      let rows := reindexRows 1 (List.insertionSort rowLe (renderChosen 1 chosen))
      .ok (rows ++ padRows (max_intervals - rows.length) ((rows.length : Int) + 1))

/-- Embeds `config.MERGE_TOUCHING`. -/
def MERGE_TOUCHING : Bool := true

/-- Embeds `config.DAY_NAMES`. -/
def DAY_NAMES : List String := ["Sun", "Mon", "Tue", "Wed", "Thu", "Fri", "Sat"]

/-- Embeds `service.GenerateOptions` with the config defaults (no environment
overrides); the fixed timezone is baked into the datetime model. -/
structure GenerateOptions where
  pad_before_min : Int := 0
  pad_after_min : Int := 0
  optimize : Bool := false
  day_names : List String := DAY_NAMES
  max_intervals : Nat := 8
deriving Repr

/-- One `start`/`end` field of a Google Calendar event dict. -/
inductive GField where
  /-- A `dateTime` entry; the instant is already in model minutes (parsing
  and timezone conversion collapse in the fixed-offset model). -/
  | dateTime (t : Int)
  /-- A `date` entry (all-day event). -/
  | date
  /-- Field missing or with neither key. -/
  | absent
deriving DecidableEq, Repr

/-- The slice of a Google Calendar event the parser reads. -/
structure GEvent where
  summary : Option String
  start : GField
  end_ : GField
deriving DecidableEq, Repr

/-- Embeds `gcal.parser.parse_event_to_interval`: timed events become an interval
clamped to the window; all-day or malformed events and non-positive spans
are dropped. -/
def parse_event_to_interval (e : GEvent) (window_start window_end : Option Int) :
    Option Interval :=
  let summary := e.summary.getD ("(no title)")
  match e.start, e.end_ with
  | .dateTime s, .dateTime en =>
    if en ≤ s then none
    else
      let s := match window_start with
        | some w => max s w
        | none => s
      let en := match window_end with
        | some w => min en w
        | none => en
      if en ≤ s then none else some ⟨s, en, [summary]⟩
  | _, _ => none

/-- A positional argument of a Python call site, as far as the service layer
passes them to the interval algebra. -/
inductive PyArg where
  | int (i : Int)
  | dt (d : Option Int)
deriving DecidableEq, Repr

/-- The Python call `apply_padding(iv, *args)` with its runtime arity check:
`core/schedule/intervals.py` declares `apply_padding(interval, before_min,
after_min)`, so any call passing a different number of positional arguments
raises `TypeError` before the body runs. -/
def apply_padding_call (interval : Interval) (args : List PyArg) :
    Except PyError Interval :=
  match args with
  | [.int before_min, .int after_min] =>
    .ok (apply_padding interval before_min after_min)
  | _ =>
    .error (.typeError
      ("apply_padding() takes 3 positional arguments but 5 were given"))

/-- Embeds `min(iv.start for iv in intervals)` over a nonempty list. -/
def minStartOf : List Interval → Int
  | [] => 0
  | iv :: rest => rest.foldl (fun a x => min a x.start) iv.start

/-- Embeds `max(iv.end for iv in intervals)` over a nonempty list. -/
def maxEndOf : List Interval → Int
  | [] => 0
  | iv :: rest => rest.foldl (fun a x => max a x.end_) iv.end_

/-- Final sort key of `prepare_intervals`: ascending `iv.start`. -/
def startLe (a b : Interval) : Prop := a.start ≤ b.start

instance : DecidableRel startLe := fun _ _ => inferInstanceAs (Decidable (_ ≤ _))

/-- Embeds `service.prepare_intervals`: parse events, merge, default the window from
the merged intervals when absent, pad (if configured) via the call site
`apply_padding(iv, pad_before, pad_after, window_start, window_end)` of
`service.py` line 134, re-merge, and sort by start. -/
def prepare_intervals (events : List GEvent) (options : GenerateOptions)
    (window_start : Option Int := none) (window_end : Option Int := none) :
    Except PyError (List Interval) :=
  let intervals := events.filterMap fun e =>
    parse_event_to_interval e window_start window_end
  let intervals := merge_intervals intervals MERGE_TOUCHING
  let ws :=
    if intervals ≠ [] ∧ (window_start = none ∨ window_end = none) then
      some (window_start.getD (minStartOf intervals - 1440))
    else window_start
  let we :=
    if intervals ≠ [] ∧ (window_start = none ∨ window_end = none) then
      some (window_end.getD (maxEndOf intervals + 1440))
    else window_end
  if options.pad_before_min ≠ 0 ∨ options.pad_after_min ≠ 0 then do
    let padded ← intervals.mapM fun iv =>
      apply_padding_call iv
        [.int options.pad_before_min, .int options.pad_after_min, .dt ws, .dt we]
    .ok (List.insertionSort startLe (merge_intervals padded MERGE_TOUCHING))
  else
    .ok (List.insertionSort startLe intervals)

/-- Embeds `service.build_unlock_rows`: naive builder (with the in-code
`len(rows) > max_intervals` retry check) or optimizer, then verification
against the required grid. -/
def build_unlock_rows (intervals : List Interval) (options : GenerateOptions) :
    Except PyError (List Row) := do
  let rows ←
    if !options.optimize then do
      let rows ← build_weekly_template intervals options.day_names
        options.max_intervals
      if rows.length > options.max_intervals then
        build_weekly_template_optimized intervals options.max_intervals
      else
        pure rows
    else
      build_weekly_template_optimized intervals options.max_intervals
  let _ ← verify_rows_match_required rows (build_required_grid intervals)
  pure rows

/-- The day-split result as the specification words it: an interval crossing
`k` midnights yields `k + 1` segments, each bounded by
`[cur_start, next local midnight)` except the last, which ends at the
original `end`, all carrying the original sources.  Stated as a closed form
(segment `i` starts at the interval start for `i = 0` and at the `i`-th
following local midnight otherwise). -/
def split_by_day_spec (iv : Interval) : List Interval :=
  let k := (dateOf iv.end_ - dateOf iv.start).toNat
  ((List.range k).map fun i =>
    { start := if i = 0 then iv.start else (dateOf iv.start + i) * 1440
      end_ := (dateOf iv.start + i + 1) * 1440
      sources := iv.sources }) ++
    [{ start := if k = 0 then iv.start else (dateOf iv.start + k) * 1440
       end_ := iv.end_
       sources := iv.sources }]

/-- The per-rule safety facts the greedy loop guarantees for every rule it
appends: a nondegenerate window, full eligibility of every flagged day, and
for every flagged day a witnessing required cell inside the window. -/
def SafeChosenRule (g : Grid) (rule : Int × Int × List Int) : Prop :=
  rule.1 < rule.2.1 ∧
  (∀ d ∈ rule.2.2, day_is_fully_covered g d rule.1 rule.2.1 = true) ∧
  (∀ d ∈ rule.2.2, ∃ m, g d m = true ∧ rule.1 ≤ m ∧ m < min rule.2.1 1440)

end UnlockSchedule

namespace UnlockSchedule

/-! ### Arithmetic facts about the datetime model -/

theorem dateOf_eq_ediv (t : Int) : dateOf t = t / 1440 :=
  Int.fdiv_eq_ediv t (by norm_num)

theorem tod_eq_emod (t : Int) : tod t = t % 1440 := rfl

theorem tod_nonneg (t : Int) : 0 ≤ tod t := by
  rw [tod_eq_emod]; omega

theorem tod_lt (t : Int) : tod t < 1440 := by
  rw [tod_eq_emod]; omega

theorem dateOf_tod (t : Int) : 1440 * dateOf t + tod t = t := by
  rw [dateOf_eq_ediv, tod_eq_emod]; omega

theorem dateOf_mul_add (a b : Int) (hb0 : 0 ≤ b) (hb : b < 1440) :
    dateOf (a * 1440 + b) = a := by
  rw [dateOf_eq_ediv]; omega

/-! ### The closed form of `split_interval_by_day` -/

theorem splitGo_closed (src : List String) :
    ∀ (n : Nat) (s e : Int),
      splitGo src n s e =
        ((List.range n).map fun i =>
          { start := if i = 0 then s else (dateOf s + i) * 1440
            end_ := (dateOf s + i + 1) * 1440
            sources := src }) ++
          [{ start := if n = 0 then s else (dateOf s + n) * 1440
             end_ := e
             sources := src }] := by
  intro n
  induction n with
  | zero => intro s e; simp [splitGo]
  | succ n ih =>
    intro s e
    have hm : dateOf ((dateOf s + 1) * 1440) = dateOf s + 1 := by
      simpa using dateOf_mul_add (dateOf s + 1) 0 le_rfl (by norm_num)
    rw [splitGo, ih ((dateOf s + 1) * 1440) e, List.range_succ_eq_map]
    simp only [hm, List.map_cons, List.map_map, List.cons_append, List.cons.injEq,
      Interval.mk.injEq]
    refine ⟨⟨by simp, by push_cast; ring, trivial⟩, ?_⟩
    congr 1
    · apply List.map_congr_left
      intro i _
      simp only [Function.comp_apply, Nat.succ_eq_add_one, Interval.mk.injEq]
      rcases Nat.eq_zero_or_pos i with hi | hi
      · subst hi
        refine ⟨by simp, by push_cast; ring, trivial⟩
      · have hne : i ≠ 0 := Nat.pos_iff_ne_zero.mp hi
        refine ⟨?_, by push_cast; ring, trivial⟩
        rw [if_neg hne, if_neg (show i + 1 ≠ 0 by omega)]
        push_cast
        ring
    · simp only [List.cons.injEq, Interval.mk.injEq, and_true]
      rcases Nat.eq_zero_or_pos n with hn | hn
      · subst hn
        simp
      · have hne : n ≠ 0 := Nat.pos_iff_ne_zero.mp hn
        rw [if_neg hne, if_neg (show n + 1 ≠ 0 by omega)]
        push_cast
        ring

theorem split_eq_spec (iv : Interval) :
    split_interval_by_day iv = split_by_day_spec iv := by
  rw [split_interval_by_day, split_by_day_spec, splitGo_closed]

theorem dateOf_mul_le (t : Int) : 1440 * dateOf t ≤ t := by
  rw [dateOf_eq_ediv]; omega

theorem lt_dateOf_succ_mul (t : Int) : t < (dateOf t + 1) * 1440 := by
  rw [dateOf_eq_ediv]; omega

theorem dateOf_mono {a b : Int} (h : a ≤ b) : dateOf a ≤ dateOf b := by
  rw [dateOf_eq_ediv, dateOf_eq_ediv]; omega

/-! ### C7: day-split correctness -/

/-- C7: `split_interval_by_day` agrees with the specification's description:
an interval crossing `k` midnights yields exactly `k + 1` segments, each
contained in one calendar day and bounded by `[cur_start, next midnight)`
except the last, which ends at the original end; all segments carry the
original sources; an interval within one day yields one unchanged segment;
`23:30 → 01:30` splits into `[23:30, 00:00)` and `[00:00, 01:30)`. -/
theorem split_by_day_correct :
    (∀ iv : Interval,
      split_interval_by_day iv = split_by_day_spec iv ∧
      (split_interval_by_day iv).length
        = (dateOf iv.end_ - dateOf iv.start).toNat + 1 ∧
      ∀ seg ∈ split_interval_by_day iv,
        seg.sources = iv.sources ∧
        1440 * dateOf seg.start ≤ seg.start ∧
        seg.end_ ≤ (dateOf seg.start + 1) * 1440) ∧
    (∀ iv : Interval, dateOf iv.start = dateOf iv.end_ →
      split_interval_by_day iv = [iv]) ∧
    split_interval_by_day ⟨1410, 1530, ["ev"]⟩
      = [⟨1410, 1440, ["ev"]⟩, ⟨1440, 1530, ["ev"]⟩] := by
  refine ⟨fun iv => ⟨split_eq_spec iv, ?_, ?_⟩, fun iv h => ?_, by decide⟩
  · rw [split_eq_spec, split_by_day_spec]
    simp
  · intro seg hseg
    rw [split_eq_spec, split_by_day_spec] at hseg
    simp only [List.mem_append, List.mem_map, List.mem_range,
      List.mem_singleton] at hseg
    rcases hseg with ⟨i, hik, rfl⟩ | rfl
    · have hd : dateOf ((dateOf iv.start + (i : Int)) * 1440)
          = dateOf iv.start + (i : Int) := by
        simpa using dateOf_mul_add (dateOf iv.start + (i : Int)) 0 le_rfl
          (by norm_num)
      refine ⟨rfl, ?_, ?_⟩ <;> dsimp only <;> split_ifs with hi
      · subst hi
        exact dateOf_mul_le iv.start
      · rw [hd]
        omega
      · subst hi
        have := lt_dateOf_succ_mul iv.start
        push_cast
        omega
      · rw [hd]
    · have hd : dateOf ((dateOf iv.start
            + ((dateOf iv.end_ - dateOf iv.start).toNat : Int)) * 1440)
          = dateOf iv.start + ((dateOf iv.end_ - dateOf iv.start).toNat : Int) := by
        simpa using dateOf_mul_add
          (dateOf iv.start + ((dateOf iv.end_ - dateOf iv.start).toNat : Int)) 0
          le_rfl (by norm_num)
      have h1 := lt_dateOf_succ_mul iv.end_
      have h2 := dateOf_mul_le iv.end_
      refine ⟨rfl, ?_, ?_⟩ <;> dsimp only <;> split_ifs with hk0
      · exact dateOf_mul_le iv.start
      · rw [hd]
        omega
      · have h3 := Int.toNat_eq_zero.mp hk0
        omega
      · have hkd : ((dateOf iv.end_ - dateOf iv.start).toNat : Int)
            = dateOf iv.end_ - dateOf iv.start := by
          rcases Int.lt_or_le (dateOf iv.end_ - dateOf iv.start) 0 with hlt | hge
          · exact absurd (Int.toNat_of_nonpos (by omega)) hk0
          · exact Int.toNat_of_nonneg hge
        rw [hd, hkd]
        omega
  · rw [split_eq_spec, split_by_day_spec]
    simp only [h, sub_self, Int.toNat_zero, List.range_zero, List.map_nil,
      List.nil_append, if_pos rfl, if_true]

/-- Witness for C7 at concrete inputs: the first segment of the midnight
crossing keeps the sources, and a one-day interval splits to itself. -/
theorem split_by_day_correct_witness :
    (⟨1410, 1440, ["ev"]⟩ : Interval).sources = (⟨1410, 1530, ["ev"]⟩ : Interval).sources ∧
    split_interval_by_day ⟨600, 660, ["d"]⟩ = [⟨600, 660, ["d"]⟩] :=
  ⟨(((split_by_day_correct.1 ⟨1410, 1530, ["ev"]⟩).2.2 ⟨1410, 1440, ["ev"]⟩)
      (by decide)).1,
    split_by_day_correct.2.1 ⟨600, 660, ["d"]⟩ (by decide)⟩

/-! ### C8: positive-length preservation in the interval algebra -/

theorem mergeScan_valid (t : Bool) :
    ∀ (l : List Interval) (cur : Interval), cur.start < cur.end_ →
      (∀ x ∈ l, x.start < x.end_) →
      ∀ y ∈ mergeScan t cur l, y.start < y.end_ := by
  intro l
  induction l with
  | nil =>
    intro cur hcur _ y hy
    simp only [mergeScan, List.mem_singleton] at hy
    exact hy ▸ hcur
  | cons nxt rest ih =>
    intro cur hcur hall y hy
    rw [mergeScan] at hy
    split at hy
    · refine ih (absorb cur nxt) ?_ (fun x hx => hall x (List.mem_cons_of_mem _ hx)) y hy
      have : cur.end_ ≤ max cur.end_ nxt.end_ := le_max_left _ _
      simp only [absorb]
      omega
    · rcases List.mem_cons.mp hy with rfl | hy'
      · exact hcur
      · exact ih nxt (hall nxt (List.mem_cons_self _ _))
          (fun x hx => hall x (List.mem_cons_of_mem _ hx)) y hy'

theorem merge_intervals_valid (l : List Interval) (t : Bool)
    (h : ∀ x ∈ l, x.start < x.end_) :
    ∀ y ∈ merge_intervals l t, y.start < y.end_ := by
  intro y hy
  rw [merge_intervals] at hy
  split at hy
  · simp at hy
  · next cur rest heq =>
    have hall : ∀ x ∈ cur :: rest, x.start < x.end_ := by
      intro x hx
      exact h x ((List.mem_insertionSort intervalLe).mp (heq ▸ hx))
    exact mergeScan_valid t rest cur (hall cur (List.mem_cons_self _ _))
      (fun x hx => hall x (List.mem_cons_of_mem _ hx)) y hy

/-- C8 counterexample: the interval `[22:00, next midnight)` satisfies
`end > start`, yet `split_interval_by_day` constructs a zero-length segment
`[midnight, midnight)`, so the algebra does construct a zero-length
interval. -/
theorem split_constructs_degenerate_segment :
    (⟨1320, 1440, ["x"]⟩ : Interval).start < (⟨1320, 1440, ["x"]⟩ : Interval).end_ ∧
    split_interval_by_day ⟨1320, 1440, ["x"]⟩
      = [⟨1320, 1440, ["x"]⟩, ⟨1440, 1440, ["x"]⟩] ∧
    ¬ ∀ seg ∈ split_interval_by_day ⟨1320, 1440, ["x"]⟩,
        seg.start < seg.end_ := by
  refine ⟨by decide, by decide, ?_⟩
  intro h
  have := h ⟨1440, 1440, ["x"]⟩ (by decide)
  simp at this

/-- C8 (amended): `merge_intervals` preserves `end > start`; every segment
`split_interval_by_day` returns satisfies `end ≥ start`, and a segment can be
zero-length only when it is the final segment of an interval that ends
exactly at a local midnight strictly after its start date (callers discard
that degenerate segment). -/
theorem algebra_preserves_positive_length :
    (∀ (l : List Interval) (t : Bool), (∀ iv ∈ l, iv.start < iv.end_) →
      ∀ iv ∈ merge_intervals l t, iv.start < iv.end_) ∧
    (∀ iv : Interval, iv.start < iv.end_ →
      ∀ seg ∈ split_interval_by_day iv,
        seg.start ≤ seg.end_ ∧
        (seg.start = seg.end_ →
          tod iv.end_ = 0 ∧ seg.end_ = iv.end_ ∧
            dateOf iv.start < dateOf iv.end_)) := by
  refine ⟨merge_intervals_valid, ?_⟩
  intro iv hiv seg hseg
  rw [split_eq_spec, split_by_day_spec] at hseg
  simp only [List.mem_append, List.mem_map, List.mem_range,
    List.mem_singleton] at hseg
  rcases hseg with ⟨i, hik, rfl⟩ | rfl
  · have hlt : (if i = 0 then iv.start else (dateOf iv.start + (i : Int)) * 1440)
        < (dateOf iv.start + (i : Int) + 1) * 1440 := by
      split_ifs with hi
      · subst hi
        have := lt_dateOf_succ_mul iv.start
        push_cast
        omega
      · omega
    exact ⟨le_of_lt hlt, fun hc => absurd hc (ne_of_lt hlt)⟩
  · dsimp only
    split_ifs with hk0
    · exact ⟨le_of_lt hiv, fun hc => absurd hc (ne_of_lt hiv)⟩
    · have hkd : ((dateOf iv.end_ - dateOf iv.start).toNat : Int)
          = dateOf iv.end_ - dateOf iv.start := by
        rcases Int.lt_or_le (dateOf iv.end_ - dateOf iv.start) 0 with hlt | hge
        · exact absurd (Int.toNat_of_nonpos (by omega)) hk0
        · exact Int.toNat_of_nonneg hge
      have hstart : (dateOf iv.start
            + ((dateOf iv.end_ - dateOf iv.start).toNat : Int)) * 1440
          = dateOf iv.end_ * 1440 := by
        rw [hkd]; ring
      have hle := dateOf_mul_le iv.end_
      constructor
      · rw [hstart]
        omega
      · intro hc
        rw [hstart] at hc
        have htod : tod iv.end_ = 0 := by
          have := dateOf_tod iv.end_
          omega
        have hdates : dateOf iv.start < dateOf iv.end_ := by
          have h0 : (0 : Int) < ((dateOf iv.end_ - dateOf iv.start).toNat : Int) := by
            rcases Nat.eq_zero_or_pos (dateOf iv.end_ - dateOf iv.start).toNat with hz | hp
            · exact absurd hz hk0
            · exact_mod_cast hp
          omega
        exact ⟨htod, rfl, hdates⟩

/-! ### C9: idempotence of merge -/

theorem mergeScan_head_start (t : Bool) :
    ∀ (l : List Interval) (cur : Interval),
      ∃ e src rest, mergeScan t cur l = ⟨cur.start, e, src⟩ :: rest := by
  intro l
  induction l with
  | nil =>
    intro cur
    exact ⟨cur.end_, cur.sources, [], rfl⟩
  | cons nxt rest ih =>
    intro cur
    rw [mergeScan]
    split
    · obtain ⟨e, src, tail, heq⟩ := ih (absorb cur nxt)
      exact ⟨e, src, tail, heq⟩
    · exact ⟨cur.end_, cur.sources, mergeScan t nxt rest, rfl⟩

theorem mergeScan_chain' (t : Bool) :
    ∀ (l : List Interval) (cur : Interval),
      List.Chain' (fun a b => overlapsB t a b = false) (mergeScan t cur l) := by
  intro l
  induction l with
  | nil =>
    intro cur
    simp [mergeScan]
  | cons nxt rest ih =>
    intro cur
    rw [mergeScan]
    split
    · exact ih (absorb cur nxt)
    · next hov =>
      rw [List.chain'_cons']
      refine ⟨?_, ih nxt⟩
      intro y hy
      obtain ⟨e, src, tail, heq⟩ := mergeScan_head_start t rest nxt
      rw [heq] at hy
      simp only [List.head?_cons, Option.mem_def, Option.some.injEq] at hy
      subst hy
      simp only [overlapsB] at hov ⊢
      exact (Bool.not_eq_true _).mp hov

theorem mergeScan_of_chain' (t : Bool) :
    ∀ (l : List Interval) (cur : Interval),
      List.Chain' (fun a b => overlapsB t a b = false) (cur :: l) →
      mergeScan t cur l = cur :: l := by
  intro l
  induction l with
  | nil =>
    intro cur _
    rfl
  | cons nxt rest ih =>
    intro cur hc
    rw [List.chain'_cons] at hc
    rw [mergeScan, if_neg (by simp [hc.1]), ih nxt hc.2]

theorem chain_sep_imp_lt (t : Bool) :
    ∀ l : List Interval, (∀ x ∈ l, x.start < x.end_) →
      List.Chain' (fun a b => overlapsB t a b = false) l →
      List.Chain' (fun a b : Interval => a.start < b.start) l := by
  intro l
  induction l with
  | nil => intro _ _; simp
  | cons a rest ih =>
    intro hv hc
    cases rest with
    | nil => simp
    | cons b rest' =>
      rw [List.chain'_cons] at hc ⊢
      refine ⟨?_, ih (fun x hx => hv x (List.mem_cons_of_mem _ hx)) hc.2⟩
      have ha := hv a (List.mem_cons_self _ _)
      have hsep := hc.1
      simp only [overlapsB] at hsep
      split at hsep <;> simp only [decide_eq_false_iff_not, not_le, not_lt] at hsep <;> omega

theorem merge_chain' (l : List Interval) (t : Bool) :
    List.Chain' (fun a b => overlapsB t a b = false) (merge_intervals l t) := by
  rw [merge_intervals]
  split
  · simp
  · exact mergeScan_chain' t _ _

theorem merge_sorted (l : List Interval) (t : Bool)
    (h : ∀ x ∈ l, x.start < x.end_) :
    List.Sorted intervalLe (merge_intervals l t) := by
  have hv := merge_intervals_valid l t h
  have hc := merge_chain' l t
  have hlt := chain_sep_imp_lt t (merge_intervals l t) hv hc
  have : IsTrans Interval (fun a b : Interval => a.start < b.start) :=
    ⟨fun _ _ _ h1 h2 => lt_trans h1 h2⟩
  have hp := List.chain'_iff_pairwise.mp hlt
  exact hp.imp fun hab => Or.inl hab

theorem merge_of_sorted_chain (m : List Interval) (t : Bool)
    (hs : List.Sorted intervalLe m)
    (hc : List.Chain' (fun a b => overlapsB t a b = false) m) :
    merge_intervals m t = m := by
  rw [merge_intervals, hs.insertionSort_eq]
  cases m with
  | nil => rfl
  | cons cur rest => exact mergeScan_of_chain' t rest cur hc

/-- C9: `merge_intervals` is idempotent on valid interval lists, for both
values of `merge_touching`. -/
theorem merge_idempotent (l : List Interval) (t : Bool)
    (h : ∀ iv ∈ l, iv.start < iv.end_) :
    merge_intervals (merge_intervals l t) t = merge_intervals l t :=
  merge_of_sorted_chain (merge_intervals l t) t (merge_sorted l t h)
    (merge_chain' l t)

/-- Witness for C9 at a concrete overlapping pair, both touching modes. -/
theorem merge_idempotent_witness :
    merge_intervals (merge_intervals [⟨0, 10, ["a"]⟩, ⟨5, 20, ["b"]⟩] true) true
        = merge_intervals [⟨0, 10, ["a"]⟩, ⟨5, 20, ["b"]⟩] true ∧
    merge_intervals (merge_intervals [⟨0, 10, ["a"]⟩, ⟨10, 20, ["b"]⟩] false) false
        = merge_intervals [⟨0, 10, ["a"]⟩, ⟨10, 20, ["b"]⟩] false :=
  ⟨merge_idempotent _ true (by decide), merge_idempotent _ false (by decide)⟩

/-! ### C6: required-grid correctness and monotonicity -/

/-- C6: `build_required_grid l d m` is true exactly when some day-split
segment of some input interval covers minute `m` of HMS day `d`, where a
segment ending exactly at midnight of a later date counts as ending at
minute 1440; and adding further intervals never turns a true cell false. -/
theorem required_grid_correct :
    (∀ (l : List Interval) (d m : Int),
      build_required_grid l d m = true ↔
        ∃ iv ∈ l, ∃ seg ∈ split_interval_by_day iv,
          hms_day_index seg.start = d ∧
          tod seg.start ≤ m ∧
          m < (if tod seg.end_ = 0 ∧ dateOf seg.end_ ≠ dateOf seg.start
               then 1440 else tod seg.end_) ∧
          m < 1440) ∧
    (∀ (l extra : List Interval) (d m : Int),
      build_required_grid l d m = true →
      build_required_grid (l ++ extra) d m = true) := by
  constructor
  · intro l d m
    simp only [build_required_grid, List.any_eq_true, Bool.and_eq_true,
      decide_eq_true_eq]
    constructor
    · rintro ⟨iv, hiv, seg, hseg, ⟨⟨hd, hs⟩, hm⟩, hm14⟩
      refine ⟨iv, hiv, seg, hseg, hd, ?_, ?_, hm14⟩
      · have h1 := tod_nonneg seg.start
        have h2 := tod_lt seg.start
        omega
      · have h1 := tod_nonneg seg.end_
        have h2 := tod_lt seg.end_
        split_ifs at hm ⊢ <;> omega
    · rintro ⟨iv, hiv, seg, hseg, hd, hs, hm, hm14⟩
      refine ⟨iv, hiv, seg, hseg, ⟨⟨hd, ?_⟩, ?_⟩, hm14⟩
      · have h1 := tod_nonneg seg.start
        have h2 := tod_lt seg.start
        omega
      · have h1 := tod_nonneg seg.end_
        have h2 := tod_lt seg.end_
        split_ifs at hm ⊢ <;> omega
  · intro l extra d m h
    simp only [build_required_grid, List.any_eq_true] at h ⊢
    obtain ⟨iv, hiv, hrest⟩ := h
    exact ⟨iv, List.mem_append_left _ hiv, hrest⟩

/-- Witness for C6 at concrete inputs: monotonicity applied to a one-interval
list extended with a second interval. -/
theorem required_grid_correct_witness :
    build_required_grid ([⟨1442, 1445, ["x"]⟩] ++ [⟨10, 20, ["y"]⟩]) 1 3 = true :=
  required_grid_correct.2 [⟨1442, 1445, ["x"]⟩] [⟨10, 20, ["y"]⟩] 1 3 (by decide)

/-! ### C2: verifier soundness -/

theorem mem_cellList (c : Int × Int) :
    c ∈ cellList ↔ 0 ≤ c.1 ∧ c.1 < 7 ∧ 0 ≤ c.2 ∧ c.2 < 1440 := by
  constructor
  · intro hc
    obtain ⟨d, hd, hmap⟩ := List.mem_flatMap.mp hc
    obtain ⟨m, hm, heq⟩ := List.mem_map.mp hmap
    rw [List.mem_range] at hd hm
    rw [← heq]
    dsimp only
    omega
  · rintro ⟨h1, h2, h3, h4⟩
    refine List.mem_flatMap.mpr ⟨c.1.toNat, List.mem_range.mpr (by omega), ?_⟩
    refine List.mem_map.mpr ⟨c.2.toNat, List.mem_range.mpr (by omega), ?_⟩
    exact Prod.ext (by dsimp only; omega) (by dsimp only; omega)

theorem verifyMismatches_eq_nil_iff (rows : List Row) (required : Grid) :
    verifyMismatches rows required = [] ↔
      ∀ d m : Int, 0 ≤ d → d < 7 → 0 ≤ m → m < 1440 →
        simGrid rows d m = required d m := by
  rw [verifyMismatches, List.take_eq_nil_iff]
  constructor
  · intro h d m h1 h2 h3 h4
    rcases h with h20 | hmap
    · exact absurd h20 (by norm_num)
    · rw [List.map_eq_nil_iff, List.filter_eq_nil_iff] at hmap
      have := hmap (d, m) ((mem_cellList (d, m)).mpr ⟨h1, h2, h3, h4⟩)
      simpa [bne_iff_ne] using this
  · intro h
    right
    rw [List.map_eq_nil_iff, List.filter_eq_nil_iff]
    intro c hc
    have hm := (mem_cellList c).mp hc
    have heq := h c.1 c.2 hm.1 hm.2.1 hm.2.2.1 hm.2.2.2
    simp [bne_iff_ne, heq]

/-- C2: the verifier raises exactly when the OR-simulated grid of the
non-placeholder rows differs from the required grid in at least one of the
7×1440 cells, and returns normally on equality; a row contributes the
minutes `[start, min(effective_end, 1440))` on each enabled day, with
`effective_end = 1440` when the rendered end is `"0000"` and the start is
not also `"0000"`. -/
theorem verifier_raises_iff_mismatch (rows : List Row) (required : Grid) :
    ((∃ err, verify_rows_match_required rows required = .error err) ↔
      ∃ d m : Int, 0 ≤ d ∧ d < 7 ∧ 0 ≤ m ∧ m < 1440 ∧
        simGrid rows d m ≠ required d m) ∧
    ((verify_rows_match_required rows required = .ok ()) ↔
      ∀ d m : Int, 0 ≤ d → d < 7 → 0 ≤ m → m < 1440 →
        simGrid rows d m = required d m) ∧
    (∀ d m : Int, simGrid rows d m = true ↔
      ∃ r ∈ rows, ¬(r.start = 0 ∧ r.end_ = 0) ∧
        day_enabled r d = true ∧
        hhmm_to_min r.start ≤ m ∧
        m < min (if hhmm_to_min r.end_ = 0 then 1440 else hhmm_to_min r.end_)
          1440) := by
  have hok : verify_rows_match_required rows required = .ok () ↔
      verifyMismatches rows required = [] := by
    rw [verify_rows_match_required]
    cases h : verifyMismatches rows required with
    | nil => simp
    | cons a tail => simp
  have herr : (∃ err, verify_rows_match_required rows required = .error err) ↔
      ¬ verifyMismatches rows required = [] := by
    rw [verify_rows_match_required]
    cases h : verifyMismatches rows required with
    | nil => simp
    | cons a tail => simp
  refine ⟨?_, ?_, ?_⟩
  · rw [herr, verifyMismatches_eq_nil_iff]
    push_neg
    constructor
    · rintro ⟨d, m, h1, h2, h3, h4, hne⟩
      exact ⟨d, m, h1, h2, h3, h4, hne⟩
    · rintro ⟨d, m, h1, h2, h3, h4, hne⟩
      exact ⟨d, m, h1, h2, h3, h4, hne⟩
  · rw [hok, verifyMismatches_eq_nil_iff]
  · intro d m
    simp only [simGrid, List.any_eq_true, Bool.and_eq_true, decide_eq_true_eq]
    constructor
    · rintro ⟨r, hr, hbody⟩
      by_cases hph : r.start = 0 ∧ r.end_ = 0
      · rw [if_pos hph] at hbody
        exact absurd hbody (by simp)
      · rw [if_neg hph] at hbody
        simp only [Bool.and_eq_true, decide_eq_true_eq] at hbody
        exact ⟨r, hr, hph, hbody.1.1, hbody.1.2, hbody.2⟩
    · rintro ⟨r, hr, hph, hday, hs, hm⟩
      refine ⟨r, hr, ?_⟩
      rw [if_neg hph]
      simp only [Bool.and_eq_true, decide_eq_true_eq]
      exact ⟨⟨hday, hs⟩, hm⟩


/-! ### C4: the padding call site -/

/-- C4 (evaluating the code at the failing input): with non-zero padding
configured and at least one parsed interval, `prepare_intervals` raises
`TypeError`, because `service.py` line 134 passes five positional arguments
to the three-parameter `apply_padding` of `core/schedule/intervals.py`;
with zero padding the same event list is processed normally. -/
theorem prepare_intervals_padding_type_error :
    prepare_intervals [⟨some ("Ev"), .dateTime 1540, .dateTime 1600⟩]
        { pad_before_min := 5 } none none
      = .error (.typeError
          ("apply_padding() takes 3 positional arguments but 5 were given")) ∧
    prepare_intervals [⟨some ("Ev"), .dateTime 1540, .dateTime 1600⟩] {} none none
      = .ok [⟨1540, 1600, ["Ev"]⟩] := by
  constructor <;> rfl

/-! ### C10: the optimizer on an all-false grid -/

theorem padRows_length : ∀ (k : Nat) (i : Int), (padRows k i).length = k := by
  intro k
  induction k with
  | zero => intro i; rfl
  | succ k ih => intro i; simp [padRows, ih]

theorem padRows_mem : ∀ (k : Nat) (i : Int) (r : Row), r ∈ padRows k i →
    ∃ j : Int, r = placeholderRow j := by
  intro k
  induction k with
  | zero => intro i r hr; simp [padRows] at hr
  | succ k ih =>
    intro i r hr
    rcases List.mem_cons.mp hr with rfl | hr'
    · exact ⟨i, rfl⟩
    · exact ih (i + 1) r hr'

theorem padRows_map_interval : ∀ (k : Nat) (i : Int),
    (padRows k i).map Row.interval
      = (List.range k).map fun (j : Nat) => i + (j : Int) := by
  intro k
  induction k with
  | zero => intro i; rfl
  | succ k ih =>
    intro i
    rw [padRows, List.range_succ_eq_map, List.map_cons, List.map_cons,
      List.map_map, ih]
    refine congrArg₂ List.cons (by simp [placeholderRow]) ?_
    apply List.map_congr_left
    intro j _
    simp only [Function.comp_apply, Nat.succ_eq_add_one]
    push_cast
    ring

/-- C10: on an all-false required grid — in particular for the empty
interval list — `build_weekly_template_optimized` returns normally with
exactly `max_intervals` placeholder rows (`Start "0000"`, `End "0000"`, no
day flags, `Holidays 0`) carrying `Interval` indices `1..max_intervals` in
order. -/
theorem optimizer_all_false_grid_placeholders (l : List Interval) (N : Nat)
    (h : ∀ d m : Int, 0 ≤ d → d < 7 → 0 ≤ m → m < 1440 →
      build_required_grid l d m = false) :
    build_weekly_template_optimized l N = .ok (padRows N 1) ∧
    (padRows N 1).length = N ∧
    (∀ r ∈ padRows N 1, r.start = 0 ∧ r.end_ = 0 ∧ r.sun = 0 ∧ r.mon = 0 ∧
      r.tue = 0 ∧ r.wed = 0 ∧ r.thu = 0 ∧ r.fri = 0 ∧ r.sat = 0 ∧
      r.holidays = 0) ∧
    (padRows N 1).map Row.interval
      = (List.range N).map fun (j : Nat) => 1 + (j : Int) := by
  have hrem : cellList.filter (fun c => build_required_grid l c.1 c.2) = [] := by
    rw [List.filter_eq_nil_iff]
    intro c hc
    have hb := (mem_cellList c).mp hc
    simp [h c.1 c.2 hb.1 hb.2.1 hb.2.2.1 hb.2.2.2]
  refine ⟨?_, padRows_length N 1, ?_, padRows_map_interval N 1⟩
  · rw [build_weekly_template_optimized]
    simp only [hrem, if_true]
  · intro r hr
    obtain ⟨j, rfl⟩ := padRows_mem N 1 r hr
    exact ⟨rfl, rfl, rfl, rfl, rfl, rfl, rfl, rfl, rfl, rfl⟩

/-- Witness for C10: the empty interval list with the default budget. -/
theorem optimizer_all_false_grid_placeholders_witness :
    build_weekly_template_optimized [] 8 = .ok (padRows 8 1) :=
  (optimizer_all_false_grid_placeholders [] 8 (fun _ _ _ _ _ _ => rfl)).1

/-! ### C5: naive builder capacity behaviour -/

theorem naiveRows_keys (l : List Interval) :
    ∀ (ks : List (Int × Int)) (i : Int) (k : Int × Int), k ∈ ks →
      ∃ r ∈ naiveRows l i ks, r.start = k.1 ∧ r.end_ = k.2 := by
  intro ks
  induction ks with
  | nil => intro i k hk; simp at hk
  | cons k0 rest ih =>
    intro i k hk
    rcases List.mem_cons.mp hk with rfl | hk'
    · exact ⟨_, List.mem_cons_self _ _, rfl, rfl⟩
    · obtain ⟨r, hr, h1, h2⟩ := ih (i + 1) k hk'
      exact ⟨r, List.mem_cons_of_mem _ hr, h1, h2⟩

/-- C5: with a well-formed 7-entry `day_names`, `build_weekly_template`
raises the capacity error — naming the count of distinct windows needed and
listing the offending sorted window list — exactly when the number of
distinct `(start, end)` groups (zero-length segments discarded) exceeds
`max_intervals`; otherwise it returns normally with every group represented
by a row. -/
theorem naive_capacity_iff (l : List Interval) (day_names : List String)
    (N : Nat) (h7 : day_names.length = 7) :
    (build_weekly_template l day_names N
        = .error (.naiveCapacity (naiveSortedKeys l).length (naiveSortedKeys l))
      ↔ (naiveSortedKeys l).length > N) ∧
    ((naiveSortedKeys l).length ≤ N →
      ∃ rows, build_weekly_template l day_names N = .ok rows ∧
        ∀ k ∈ naiveSortedKeys l, ∃ r ∈ rows,
          r.start = k.1 ∧ r.end_ = k.2) := by
  rw [build_weekly_template, if_neg (by omega)]
  constructor
  · by_cases hgt : (naiveSortedKeys l).length > N
    · rw [if_pos hgt]
      exact ⟨fun _ => hgt, fun _ => rfl⟩
    · rw [if_neg hgt]
      exact ⟨fun hc => absurd hc (by simp), fun hc => absurd hc hgt⟩
  · intro hle
    rw [if_neg (by omega)]
    refine ⟨_, rfl, ?_⟩
    intro k hk
    obtain ⟨r, hr, h1, h2⟩ := naiveRows_keys l (naiveSortedKeys l) 1 k hk
    exact ⟨r, List.mem_append_left _ hr, h1, h2⟩

/-- Witness for C5: the three-window week against a budget of 2 raises the
capacity error listing the three windows, and against a budget of 8 returns
rows covering each window. -/
theorem naive_capacity_iff_witness :
    build_weekly_template
        [⟨1440, 1444, ["B1"]⟩, ⟨2882, 2886, ["B2"]⟩, ⟨4320, 4326, ["B3"]⟩]
        DAY_NAMES 2
      = .error (.naiveCapacity
          (naiveSortedKeys
            [⟨1440, 1444, ["B1"]⟩, ⟨2882, 2886, ["B2"]⟩, ⟨4320, 4326, ["B3"]⟩]).length
          (naiveSortedKeys
            [⟨1440, 1444, ["B1"]⟩, ⟨2882, 2886, ["B2"]⟩, ⟨4320, 4326, ["B3"]⟩])) ∧
    ∃ rows, build_weekly_template
        [⟨1440, 1444, ["B1"]⟩, ⟨2882, 2886, ["B2"]⟩, ⟨4320, 4326, ["B3"]⟩]
        DAY_NAMES 8 = .ok rows ∧
      ∀ k ∈ naiveSortedKeys
          [⟨1440, 1444, ["B1"]⟩, ⟨2882, 2886, ["B2"]⟩, ⟨4320, 4326, ["B3"]⟩],
        ∃ r ∈ rows, r.start = k.1 ∧ r.end_ = k.2 :=
  ⟨(naive_capacity_iff _ DAY_NAMES 2 rfl).1.mpr (by decide),
    (naive_capacity_iff _ DAY_NAMES 8 rfl).2 (by decide)⟩

/-- Witness for C8's amended statement at a concrete input. -/
theorem algebra_preserves_positive_length_witness :
    (∀ iv ∈ merge_intervals [⟨0, 10, ["a"]⟩, ⟨5, 20, ["b"]⟩] true,
      iv.start < iv.end_) ∧
    ∀ seg ∈ split_interval_by_day ⟨1320, 1440, ["x"]⟩,
      seg.start ≤ seg.end_ :=
  ⟨algebra_preserves_positive_length.1 _ true (by decide),
    fun seg hseg =>
      ((algebra_preserves_positive_length.2 ⟨1320, 1440, ["x"]⟩ (by decide))
        seg hseg).1⟩

/-! ### C1: the optimizer never over-opens -/

theorem mem_intRange {m s e : Int} : m ∈ intRange s e ↔ s ≤ m ∧ m < e := by
  simp only [intRange, List.mem_map, List.mem_range]
  constructor
  · rintro ⟨i, hi, rfl⟩
    omega
  · rintro ⟨h1, h2⟩
    exact ⟨(m - s).toNat, by omega, by omega⟩

theorem day_is_fully_covered_spec (g : Grid) (d s e : Int)
    (h : day_is_fully_covered g d s e = true) :
    ∀ m, s ≤ m → m < min e 1440 → g d m = true := by
  rw [day_is_fully_covered, List.all_eq_true] at h
  intro m h1 h2
  exact h m (mem_intRange.mpr ⟨h1, h2⟩)

theorem grid_true_bounds (l : List Interval) (d m : Int)
    (h : build_required_grid l d m = true) : 0 ≤ m ∧ m < 1440 := by
  simp only [build_required_grid, List.any_eq_true, Bool.and_eq_true,
    decide_eq_true_eq] at h
  obtain ⟨iv, _, seg, _, ⟨⟨_, hs⟩, _⟩, h14⟩ := h
  have h0 : (0 : Int) ≤ max 0 (min 1440 (tod seg.start)) := le_max_left _ _
  exact ⟨by omega, h14⟩

theorem hhmm_round (s : Int) (h0 : 0 ≤ s) (h1 : s ≠ 1440) :
    hhmm_to_min (min_to_hhmm s) = s := by
  rw [min_to_hhmm, if_neg h1, hhmm_to_min]
  have hr0 : 0 ≤ s % 60 := Int.emod_nonneg s (by norm_num)
  have hr1 : s % 60 < 60 := Int.emod_lt_of_pos s (by norm_num)
  have hq0 : 0 ≤ s / 60 := Int.ediv_nonneg h0 (by norm_num)
  have hdiv : (s / 60 * 100 + s % 60) / 100 = s / 60 := by
    rw [add_comm, Int.add_mul_ediv_right _ _ (by norm_num : (100 : Int) ≠ 0),
      Int.ediv_eq_zero_of_lt hr0 (by omega), zero_add]
  have hmod : (s / 60 * 100 + s % 60) % 100 = s % 60 := by
    rw [add_comm, Int.add_mul_emod_self]
    exact Int.emod_eq_of_lt hr0 (by omega)
  rw [hdiv, hmod]
  omega

theorem filter_cover_length_lt (remaining cover : List (Int × Int))
    (hne : cover ≠ []) (hsub : ∀ x ∈ cover, x ∈ remaining) :
    (remaining.filter fun x => !decide (x ∈ cover)).length < remaining.length := by
  obtain ⟨x, hx⟩ := List.exists_mem_of_ne_nil _ hne
  have hxr : x ∈ remaining := hsub x hx
  have hsubl : (remaining.filter fun x => !decide (x ∈ cover)).Sublist remaining :=
    List.filter_sublist _
  have hle := hsubl.length_le
  rcases Nat.lt_or_ge (remaining.filter fun x => !decide (x ∈ cover)).length
      remaining.length with hlt | hge
  · exact hlt
  · exfalso
    have heq := hsubl.eq_of_length (Nat.le_antisymm hle hge)
    have hxf : x ∈ remaining.filter fun x => !decide (x ∈ cover) := by
      rw [heq]; exact hxr
    have := List.of_mem_filter hxf
    simp [hx] at this

theorem greedyLoop_fuel_irrelevant (g : Grid) (cands : List (Int × Int))
    (N : Nat) :
    ∀ (fuel fuel' : Nat) (remaining : List (Int × Int))
      (chosen : List (Int × Int × List Int)),
      remaining.length ≤ fuel → remaining.length ≤ fuel' →
      greedyLoop g cands N fuel remaining chosen
        = greedyLoop g cands N fuel' remaining chosen := by
  intro fuel
  induction fuel with
  | zero =>
    intro fuel' remaining chosen h1 _
    have hnil : remaining = [] := List.eq_nil_of_length_eq_zero (by omega)
    subst hnil
    rw [greedyLoop.eq_def, greedyLoop.eq_def]
    simp
  | succ fuel ih =>
    intro fuel' remaining chosen h1 h2
    by_cases hre : remaining = []
    · subst hre
      rw [greedyLoop.eq_def, greedyLoop.eq_def]
      simp
    · have hlen : 1 ≤ remaining.length := by
        cases remaining with
        | nil => exact absurd rfl hre
        | cons a l => simp
      cases fuel' with
      | zero => omega
      | succ fuel' =>
        rw [greedyLoop.eq_def, greedyLoop.eq_def]
        dsimp only
        rw [if_neg hre, if_neg hre]
        cases hb : pickBest g remaining cands with
        | none => rfl
        | some b =>
          dsimp only
          obtain ⟨hcne, hcsub, -, -, -, -⟩ := b.2
          have hdec := filter_cover_length_lt remaining b.1.cover hcne hcsub
          by_cases hcap :
              (chosen ++ [(b.1.s, b.1.e, b.1.days)]).length > N
          · rw [if_pos hcap, if_pos hcap]
          · rw [if_neg hcap, if_neg hcap]
            exact ih fuel' _ _ (by omega) (by omega)

theorem greedyLoop_safe (g : Grid) (cands : List (Int × Int)) (N : Nat) :
    ∀ (fuel : Nat) (remaining : List (Int × Int))
      (chosen out : List (Int × Int × List Int)),
      (∀ x ∈ remaining, g x.1 x.2 = true) →
      (∀ r ∈ chosen, SafeChosenRule g r) →
      greedyLoop g cands N fuel remaining chosen = .ok out →
      ∀ r ∈ out, SafeChosenRule g r := by
  intro fuel
  induction fuel with
  | zero =>
    intro remaining chosen out hrem hch hok r hr
    rw [greedyLoop.eq_def] at hok
    dsimp only at hok
    by_cases hre : remaining = []
    · rw [if_pos hre] at hok
      simp only [Except.ok.injEq] at hok
      subst hok
      exact hch r hr
    · rw [if_neg hre] at hok
      simp at hok
  | succ fuel ih =>
    intro remaining chosen out hrem hch hok r hr
    rw [greedyLoop.eq_def] at hok
    dsimp only at hok
    by_cases hre : remaining = []
    · rw [if_pos hre] at hok
      simp only [Except.ok.injEq] at hok
      subst hok
      exact hch r hr
    · rw [if_neg hre] at hok
      cases hb : pickBest g remaining cands with
      | none => simp [hb] at hok
      | some b =>
        simp only [hb] at hok
        split at hok
        · simp at hok
        · refine ih _ _ out ?_ ?_ hok r hr
          · intro x hx
            exact hrem x (List.mem_of_mem_filter hx)
          · intro r' hr'
            rcases List.mem_append.mp hr' with hr1 | hr2
            · exact hch r' hr1
            · rw [List.mem_singleton] at hr2
              subst hr2
              obtain ⟨hcne, hcsub, hful, hdays, hcrange, hlt⟩ := b.2
              refine ⟨hlt, hful, ?_⟩
              intro d hd
              obtain ⟨m', hm'⟩ := hdays d hd
              have hgtrue := hrem _ (hcsub _ hm')
              have hrange := hcrange _ hm'
              exact ⟨m', hgtrue, hrange.1, hrange.2⟩

theorem renderChosen_mem :
    ∀ (rules : List (Int × Int × List Int)) (i : Int) (r : Row),
      r ∈ renderChosen i rules →
      ∃ rule ∈ rules,
        r.start = min_to_hhmm rule.1 ∧ r.end_ = min_to_hhmm rule.2.1 ∧
        r.sun = (if 0 ∈ rule.2.2 then 1 else 0) ∧
        r.mon = (if 1 ∈ rule.2.2 then 1 else 0) ∧
        r.tue = (if 2 ∈ rule.2.2 then 1 else 0) ∧
        r.wed = (if 3 ∈ rule.2.2 then 1 else 0) ∧
        r.thu = (if 4 ∈ rule.2.2 then 1 else 0) ∧
        r.fri = (if 5 ∈ rule.2.2 then 1 else 0) ∧
        r.sat = (if 6 ∈ rule.2.2 then 1 else 0) := by
  intro rules
  induction rules with
  | nil => intro i r hr; simp [renderChosen] at hr
  | cons rule rest ih =>
    intro i r hr
    obtain ⟨s0, e0, days0⟩ := rule
    rcases List.mem_cons.mp hr with rfl | hr2
    · exact ⟨(s0, e0, days0), List.mem_cons_self _ _, rfl, rfl, rfl, rfl, rfl,
        rfl, rfl, rfl, rfl⟩
    · obtain ⟨rule2, hrule2, hfields⟩ := ih (i + 1) r hr2
      exact ⟨rule2, List.mem_cons_of_mem _ hrule2, hfields⟩

theorem reindexRows_mem :
    ∀ (rs : List Row) (i : Int) (r : Row), r ∈ reindexRows i rs →
      ∃ r0 ∈ rs, r.start = r0.start ∧ r.end_ = r0.end_ ∧
        r.sun = r0.sun ∧ r.mon = r0.mon ∧ r.tue = r0.tue ∧ r.wed = r0.wed ∧
        r.thu = r0.thu ∧ r.fri = r0.fri ∧ r.sat = r0.sat := by
  intro rs
  induction rs with
  | nil => intro i r hr; simp [reindexRows] at hr
  | cons r0 rest ih =>
    intro i r hr
    rcases List.mem_cons.mp hr with rfl | hr2
    · exact ⟨r0, List.mem_cons_self _ _, rfl, rfl, rfl, rfl, rfl, rfl, rfl,
        rfl, rfl⟩
    · obtain ⟨r1, hr1, hfields⟩ := ih (i + 1) r hr2
      exact ⟨r1, List.mem_cons_of_mem _ hr1, hfields⟩

theorem day_enabled_placeholder (j d : Int) :
    day_enabled (placeholderRow j) d = false := by
  simp [day_enabled, placeholderRow]

theorem day_enabled_elim (r : Row) (d : Int) (h : day_enabled r d = true) :
    (d = 0 ∧ r.sun ≠ 0) ∨ (d = 1 ∧ r.mon ≠ 0) ∨ (d = 2 ∧ r.tue ≠ 0) ∨
    (d = 3 ∧ r.wed ≠ 0) ∨ (d = 4 ∧ r.thu ≠ 0) ∨ (d = 5 ∧ r.fri ≠ 0) ∨
    (d = 6 ∧ r.sat ≠ 0) := by
  simp only [day_enabled, Bool.or_eq_true, Bool.and_eq_true,
    decide_eq_true_eq, Bool.not_eq_true', decide_eq_false_iff_not] at h
  tauto

set_option maxRecDepth 8000 in
/-- C1: the optimizer never over-opens.  Every rule emitted by
`build_weekly_template_optimized` with a non-placeholder window, for every
day its flag enables and every minute in the window's decoded
`[start, min(end, 1440))` range (end `"0000"` meaning 1440), covers only
minutes the required grid marks as unlocked. -/
theorem optimizer_never_overopens (l : List Interval) (N : Nat)
    (rows : List Row) (hok : build_weekly_template_optimized l N = .ok rows)
    (r : Row) (hr : r ∈ rows) (hnp : ¬(r.start = 0 ∧ r.end_ = 0))
    (d m : Int) (hd : day_enabled r d = true)
    (hm1 : hhmm_to_min r.start ≤ m)
    (hm2 : m < min (if hhmm_to_min r.end_ = 0 then 1440
                    else hhmm_to_min r.end_) 1440) :
    build_required_grid l d m = true := by
  rw [build_weekly_template_optimized] at hok
  by_cases hre : cellList.filter (fun c => build_required_grid l c.1 c.2) = []
  · rw [if_pos hre] at hok
    simp only [Except.ok.injEq] at hok
    subst hok
    obtain ⟨j, rfl⟩ := padRows_mem _ _ r hr
    rw [day_enabled_placeholder] at hd
    simp at hd
  · rw [if_neg hre] at hok
    cases hloop : greedyLoop (build_required_grid l)
        (candidate_intervals (extract_boundaries (build_required_grid l))) N
        (cellList.filter (fun c => build_required_grid l c.1 c.2)).length
        (cellList.filter (fun c => build_required_grid l c.1 c.2)) [] with
    | error e =>
      rw [hloop] at hok
      simp at hok
    | ok chosen =>
      rw [hloop] at hok
      dsimp only at hok
      simp only [Except.ok.injEq] at hok
      subst hok
      rcases List.mem_append.mp hr with hr1 | hr2
      swap
      · obtain ⟨j, rfl⟩ := padRows_mem _ _ r hr2
        rw [day_enabled_placeholder] at hd
        simp at hd
      obtain ⟨r0, hr0, hfs, hfe, hfsun, hfmon, hftue, hfwed, hfthu, hffri,
        hfsat⟩ := reindexRows_mem _ 1 r hr1
      have hr02 : r0 ∈ renderChosen 1 chosen :=
        (List.mem_insertionSort rowLe).mp hr0
      obtain ⟨rule, hrule, hstart, hend, hsun, hmon, htue, hwed, hthu, hfri,
        hsat⟩ := renderChosen_mem chosen 1 r0 hr02
      have hsafe : SafeChosenRule (build_required_grid l) rule := by
        refine greedyLoop_safe (build_required_grid l) _ N _ _ [] chosen ?_
          (by intro x hx; simp at hx) hloop rule hrule
        intro x hx
        exact (List.mem_filter.mp hx).2
      obtain ⟨hlt, hful, hwit⟩ := hsafe
      have hdin : d ∈ rule.2.2 := by
        rcases day_enabled_elim r d hd with ⟨rfl, hne⟩ | ⟨rfl, hne⟩ |
          ⟨rfl, hne⟩ | ⟨rfl, hne⟩ | ⟨rfl, hne⟩ | ⟨rfl, hne⟩ | ⟨rfl, hne⟩
        · by_cases h0 : (0 : Int) ∈ rule.2.2
          · exact h0
          · rw [hfsun, hsun, if_neg h0] at hne
            exact absurd rfl hne
        · by_cases h0 : (1 : Int) ∈ rule.2.2
          · exact h0
          · rw [hfmon, hmon, if_neg h0] at hne
            exact absurd rfl hne
        · by_cases h0 : (2 : Int) ∈ rule.2.2
          · exact h0
          · rw [hftue, htue, if_neg h0] at hne
            exact absurd rfl hne
        · by_cases h0 : (3 : Int) ∈ rule.2.2
          · exact h0
          · rw [hfwed, hwed, if_neg h0] at hne
            exact absurd rfl hne
        · by_cases h0 : (4 : Int) ∈ rule.2.2
          · exact h0
          · rw [hfthu, hthu, if_neg h0] at hne
            exact absurd rfl hne
        · by_cases h0 : (5 : Int) ∈ rule.2.2
          · exact h0
          · rw [hffri, hfri, if_neg h0] at hne
            exact absurd rfl hne
        · by_cases h0 : (6 : Int) ∈ rule.2.2
          · exact h0
          · rw [hfsat, hsat, if_neg h0] at hne
            exact absurd rfl hne
      obtain ⟨m0, hged, hm0s, hm0e⟩ := hwit d hdin
      have hm0b := grid_true_bounds l d m0 hged
      have hs0nonneg : 0 ≤ rule.1 := by
        by_contra hneg
        push_neg at hneg
        have hcov := day_is_fully_covered_spec _ _ _ _ (hful d hdin) rule.1
          le_rfl (by omega)
        have := (grid_true_bounds l d rule.1 hcov).1
        omega
      have hdst : hhmm_to_min r.start = rule.1 := by
        rw [hfs, hstart, hhmm_round rule.1 hs0nonneg (by omega)]
      rw [hdst] at hm1
      by_cases he : rule.2.1 = 1440
      · have hz : hhmm_to_min r.end_ = 0 := by
          rw [hfe, hend, he]
          rfl
        rw [if_pos hz] at hm2
        refine day_is_fully_covered_spec _ _ _ _ (hful d hdin) m hm1 ?_
        rw [he]
        omega
      · have he0pos : 0 < rule.2.1 := by omega
        have hde : hhmm_to_min r.end_ = rule.2.1 := by
          rw [hfe, hend, hhmm_round rule.2.1 (by omega) he]
        rw [hde, if_neg (by omega : ¬ rule.2.1 = 0)] at hm2
        exact day_is_fully_covered_spec _ _ _ _ (hful d hdin) m hm1 hm2

/-- Closed form of the required grid of the single interval Mon 00:02-00:05
used by the C1 witness. -/
theorem g1_eval (d m : Int) :
    build_required_grid [⟨1442, 1445, ["x"]⟩] d m
      = (decide (d = 1) && decide (2 ≤ m) && decide (m < 5)) := by
  have hsp : split_interval_by_day ⟨1442, 1445, ["x"]⟩ = [⟨1442, 1445, ["x"]⟩] := rfl
  have c1 : hms_day_index 1442 = 1 := by decide
  have c2 : max (0 : Int) (min 1440 (tod 1442)) = 2 := by decide
  have c3 : max (0 : Int) (min 1440
      (if tod 1445 = 0 ∧ dateOf 1445 ≠ dateOf 1442 then 1440 else tod 1445)) = 5 := by
    decide
  simp only [build_required_grid, hsp, List.any_cons, List.any_nil, Bool.or_false]
  rw [c1, c2, c3, Bool.eq_iff_iff]
  simp only [Bool.and_eq_true, decide_eq_true_eq]
  omega

/-- Block peeling for filters over mapped ranges: a leading block on which
the predicate is uniformly false contributes nothing, so the scan continues
at its end.  This lets the 1440-minute scans of the verifier and optimizer
be computed symbolically instead of cell by cell. -/
theorem mapRange_filter_peel_false {α : Type} {p : α → Bool} (f : Nat → α)
    (a len k b c : Nat) (hb : a + k = b) (hc : len - k = c) (hk : k ≤ len)
    (h : ∀ m : Nat, a ≤ m → m < a + k → p (f m) = false) :
    ((List.range' a len).map f).filter p = ((List.range' b c).map f).filter p := by
  subst hb hc
  have hsp : List.range' a k ++ List.range' (a + k) (len - k) = List.range' a len := by
    have h0 := List.range'_append a k (len - k) 1
    rw [Nat.one_mul] at h0
    rw [h0]
    congr 1
    omega
  rw [← hsp, List.map_append, List.filter_append]
  have hnil : ((List.range' a k).map f).filter p = [] := by
    rw [List.filter_eq_nil_iff]
    intro x hx
    rw [List.mem_map] at hx
    obtain ⟨m, hm, rfl⟩ := hx
    rw [List.mem_range'_1] at hm
    simp [h m hm.1 hm.2]
  rw [hnil, List.nil_append]

/-- Block peeling for filters over mapped ranges: a leading block on which
the predicate is uniformly true is kept whole. -/
theorem mapRange_filter_peel_true {α : Type} {p : α → Bool} (f : Nat → α)
    (a len k b c : Nat) (hb : a + k = b) (hc : len - k = c) (hk : k ≤ len)
    (h : ∀ m : Nat, a ≤ m → m < a + k → p (f m) = true) :
    ((List.range' a len).map f).filter p
      = (List.range' a k).map f ++ ((List.range' b c).map f).filter p := by
  subst hb hc
  have hsp : List.range' a k ++ List.range' (a + k) (len - k) = List.range' a len := by
    have h0 := List.range'_append a k (len - k) 1
    rw [Nat.one_mul] at h0
    rw [h0]
    congr 1
    omega
  rw [← hsp, List.map_append, List.filter_append]
  congr 1
  rw [List.filter_eq_self]
  intro x hx
  rw [List.mem_map] at hx
  obtain ⟨m, hm, rfl⟩ := hx
  rw [List.mem_range'_1] at hm
  exact h m hm.1 hm.2

/-- The still-uncovered required cells of the C1 witness grid, computed in
scan order by block peeling. -/
theorem cells_g1 :
    cellList.filter
        (fun c => build_required_grid [⟨1442, 1445, ["x"]⟩] c.1 c.2)
      = [(1, 2), (1, 3), (1, 4)] := by
  simp only [cellList]
  rw [show List.range 7 = [0, 1, 2, 3, 4, 5, 6] from rfl]
  simp only [List.flatMap_cons, List.flatMap_nil, List.append_nil,
    List.filter_append, List.range_eq_range']
  rw [mapRange_filter_peel_false (fun (m : Nat) => (((0 : Nat) : Int), (m : Int)))
      0 1440 1440 1440 0 (by norm_num) (by norm_num) (by norm_num)
      (fun m h1 h2 => by simp [g1_eval])]
  rw [mapRange_filter_peel_false (fun (m : Nat) => (((1 : Nat) : Int), (m : Int)))
      0 1440 2 2 1438 (by norm_num) (by norm_num) (by norm_num)
      (fun m h1 h2 => by simp only [g1_eval]; simp; omega)]
  rw [mapRange_filter_peel_true (fun (m : Nat) => (((1 : Nat) : Int), (m : Int)))
      2 1438 3 5 1435 (by norm_num) (by norm_num) (by norm_num)
      (fun m h1 h2 => by simp only [g1_eval]; simp; omega)]
  rw [mapRange_filter_peel_false (fun (m : Nat) => (((1 : Nat) : Int), (m : Int)))
      5 1435 1435 1440 0 (by norm_num) (by norm_num) (by norm_num)
      (fun m h1 h2 => by simp only [g1_eval]; simp; omega)]
  rw [mapRange_filter_peel_false (fun (m : Nat) => (((2 : Nat) : Int), (m : Int)))
      0 1440 1440 1440 0 (by norm_num) (by norm_num) (by norm_num)
      (fun m h1 h2 => by simp [g1_eval])]
  rw [mapRange_filter_peel_false (fun (m : Nat) => (((3 : Nat) : Int), (m : Int)))
      0 1440 1440 1440 0 (by norm_num) (by norm_num) (by norm_num)
      (fun m h1 h2 => by simp [g1_eval])]
  rw [mapRange_filter_peel_false (fun (m : Nat) => (((4 : Nat) : Int), (m : Int)))
      0 1440 1440 1440 0 (by norm_num) (by norm_num) (by norm_num)
      (fun m h1 h2 => by simp [g1_eval])]
  rw [mapRange_filter_peel_false (fun (m : Nat) => (((5 : Nat) : Int), (m : Int)))
      0 1440 1440 1440 0 (by norm_num) (by norm_num) (by norm_num)
      (fun m h1 h2 => by simp [g1_eval])]
  rw [mapRange_filter_peel_false (fun (m : Nat) => (((6 : Nat) : Int), (m : Int)))
      0 1440 1440 1440 0 (by norm_num) (by norm_num) (by norm_num)
      (fun m h1 h2 => by simp [g1_eval])]
  decide

/-- Pointwise form of the boundary predicate of `extract_boundaries` on the
C1 witness grid: day 1 has the single required run `[2, 5)`. -/
theorem qB1 (b : Int) (hb0 : 0 ≤ b) (hb1 : b ≤ 1440) :
    (decide (b = 0) || decide (b = 1440) ||
      (List.range 7).any fun (d : Nat) =>
        isRunStart (build_required_grid [⟨1442, 1445, ["x"]⟩]) (d : Int) b ||
          isRunEnd (build_required_grid [⟨1442, 1445, ["x"]⟩]) (d : Int) b)
      = decide (b = 0 ∨ b = 2 ∨ b = 5 ∨ b = 1440) := by
  rw [show List.range 7 = [0, 1, 2, 3, 4, 5, 6] from rfl]
  simp only [List.any_cons, List.any_nil, isRunStart, isRunEnd, g1_eval,
    Bool.or_false]
  rw [Bool.eq_iff_iff]
  simp only [Bool.not_and, Bool.or_eq_true, Bool.and_eq_true, Bool.not_eq_true,
    Bool.not_eq_true', decide_eq_true_eq, decide_eq_false_iff_not]
  norm_num
  omega

/-- The boundary set of the C1 witness grid. -/
theorem bounds_g1 :
    extract_boundaries (build_required_grid [⟨1442, 1445, ["x"]⟩])
      = [0, 2, 5, 1440] := by
  simp only [extract_boundaries]
  rw [List.range_eq_range' 1441]
  rw [mapRange_filter_peel_true (fun (n : Nat) => (n : Int)) 0 1441 1 1 1440
      (by norm_num) (by norm_num) (by norm_num)
      (fun m h1 h2 => by
        have hq := qB1 (m : Int) (by omega) (by omega)
        simp only [hq]
        exact decide_eq_true (by omega))]
  rw [mapRange_filter_peel_false (fun (n : Nat) => (n : Int)) 1 1440 1 2 1439
      (by norm_num) (by norm_num) (by norm_num)
      (fun m h1 h2 => by
        have hq := qB1 (m : Int) (by omega) (by omega)
        simp only [hq]
        exact decide_eq_false (by omega))]
  rw [mapRange_filter_peel_true (fun (n : Nat) => (n : Int)) 2 1439 1 3 1438
      (by norm_num) (by norm_num) (by norm_num)
      (fun m h1 h2 => by
        have hq := qB1 (m : Int) (by omega) (by omega)
        simp only [hq]
        exact decide_eq_true (by omega))]
  rw [mapRange_filter_peel_false (fun (n : Nat) => (n : Int)) 3 1438 2 5 1436
      (by norm_num) (by norm_num) (by norm_num)
      (fun m h1 h2 => by
        have hq := qB1 (m : Int) (by omega) (by omega)
        simp only [hq]
        exact decide_eq_false (by omega))]
  rw [mapRange_filter_peel_true (fun (n : Nat) => (n : Int)) 5 1436 1 6 1435
      (by norm_num) (by norm_num) (by norm_num)
      (fun m h1 h2 => by
        have hq := qB1 (m : Int) (by omega) (by omega)
        simp only [hq]
        exact decide_eq_true (by omega))]
  rw [mapRange_filter_peel_false (fun (n : Nat) => (n : Int)) 6 1435 1434 1440 1
      (by norm_num) (by norm_num) (by norm_num)
      (fun m h1 h2 => by
        have hq := qB1 (m : Int) (by omega) (by omega)
        simp only [hq]
        exact decide_eq_false (by omega))]
  rw [mapRange_filter_peel_true (fun (n : Nat) => (n : Int)) 1440 1 1 1441 0
      (by norm_num) (by norm_num) (by norm_num)
      (fun m h1 h2 => by
        have hq := qB1 (m : Int) (by omega) (by omega)
        simp only [hq]
        exact decide_eq_true (by omega))]
  decide

set_option maxRecDepth 40000 in
/-- Unfolding equation of `build_weekly_template_optimized` in terms of a
precomputed uncovered-cell list and boundary list, so that concrete runs can
be evaluated after rewriting with their closed forms. -/
theorem bwto_eq (intervals : List Interval) (max_intervals : Nat)
    (R : List (Int × Int)) (B : List Int)
    (hR : cellList.filter (fun c => build_required_grid intervals c.1 c.2) = R)
    (hB : extract_boundaries (build_required_grid intervals) = B) :
    build_weekly_template_optimized intervals max_intervals
      = if R = [] then .ok (padRows max_intervals 1)
        else
          match greedyLoop (build_required_grid intervals) (candidate_intervals B)
              max_intervals R.length R [] with
          | .error err => .error err
          | .ok chosen =>
            let rows := reindexRows 1 (List.insertionSort rowLe (renderChosen 1 chosen))
            .ok (rows ++ padRows (max_intervals - rows.length) ((rows.length : Int) + 1)) := by
  subst hR hB
  rfl

/-- Concrete optimizer run backing the C1 witness: a lone Monday 00:02-00:05
interval yields one rule plus two placeholders. -/
theorem optimized_single_interval_eval :
    build_weekly_template_optimized [⟨1442, 1445, ["x"]⟩] 3
      = .ok [⟨1, 2, 5, 0, 1, 0, 0, 0, 0, 0, 0⟩, ⟨2, 0, 0, 0, 0, 0, 0, 0, 0, 0, 0⟩,
          ⟨3, 0, 0, 0, 0, 0, 0, 0, 0, 0, 0⟩] := by
  rw [bwto_eq _ 3 _ _ cells_g1 bounds_g1]
  decide!

/-- Closed form of the required grid of the three intervals Mon 00:00-00:04,
Tue 00:02-00:06 and Wed 00:00-00:06 used for C3. -/
theorem g3_eval (d m : Int) :
    build_required_grid
        [⟨1440, 1444, ["B1"]⟩, ⟨2882, 2886, ["B2"]⟩, ⟨4320, 4326, ["B3"]⟩] d m
      = ((decide (d = 1) && decide (0 ≤ m) && decide (m < 4)) ||
          (decide (d = 2) && decide (2 ≤ m) && decide (m < 6)) ||
          (decide (d = 3) && decide (0 ≤ m) && decide (m < 6))) := by
  have hsp1 : split_interval_by_day ⟨1440, 1444, ["B1"]⟩ = [⟨1440, 1444, ["B1"]⟩] := rfl
  have hsp2 : split_interval_by_day ⟨2882, 2886, ["B2"]⟩ = [⟨2882, 2886, ["B2"]⟩] := rfl
  have hsp3 : split_interval_by_day ⟨4320, 4326, ["B3"]⟩ = [⟨4320, 4326, ["B3"]⟩] := rfl
  have c11 : hms_day_index 1440 = 1 := by decide
  have c12 : max (0 : Int) (min 1440 (tod 1440)) = 0 := by decide
  have c13 : max (0 : Int) (min 1440
      (if tod 1444 = 0 ∧ dateOf 1444 ≠ dateOf 1440 then 1440 else tod 1444)) = 4 := by
    decide
  have c21 : hms_day_index 2882 = 2 := by decide
  have c22 : max (0 : Int) (min 1440 (tod 2882)) = 2 := by decide
  have c23 : max (0 : Int) (min 1440
      (if tod 2886 = 0 ∧ dateOf 2886 ≠ dateOf 2882 then 1440 else tod 2886)) = 6 := by
    decide
  have c31 : hms_day_index 4320 = 3 := by decide
  have c32 : max (0 : Int) (min 1440 (tod 4320)) = 0 := by decide
  have c33 : max (0 : Int) (min 1440
      (if tod 4326 = 0 ∧ dateOf 4326 ≠ dateOf 4320 then 1440 else tod 4326)) = 6 := by
    decide
  simp only [build_required_grid, hsp1, hsp2, hsp3, List.any_cons, List.any_nil,
    Bool.or_false]
  rw [c11, c12, c13, c21, c22, c23, c31, c32, c33, Bool.eq_iff_iff]
  simp only [Bool.or_eq_true, Bool.and_eq_true, decide_eq_true_eq]
  omega

/-- The required cells of the C3 grid, in scan order. -/
theorem cells_g3 :
    cellList.filter
        (fun c => build_required_grid
          [⟨1440, 1444, ["B1"]⟩, ⟨2882, 2886, ["B2"]⟩, ⟨4320, 4326, ["B3"]⟩] c.1 c.2)
      = [(1, 0), (1, 1), (1, 2), (1, 3), (2, 2), (2, 3), (2, 4), (2, 5),
          (3, 0), (3, 1), (3, 2), (3, 3), (3, 4), (3, 5)] := by
  simp only [cellList]
  rw [show List.range 7 = [0, 1, 2, 3, 4, 5, 6] from rfl]
  simp only [List.flatMap_cons, List.flatMap_nil, List.append_nil,
    List.filter_append, List.range_eq_range']
  rw [mapRange_filter_peel_false (fun (m : Nat) => (((0 : Nat) : Int), (m : Int)))
      0 1440 1440 1440 0 (by norm_num) (by norm_num) (by norm_num)
      (fun m h1 h2 => by simp [g3_eval])]
  rw [mapRange_filter_peel_true (fun (m : Nat) => (((1 : Nat) : Int), (m : Int)))
      0 1440 4 4 1436 (by norm_num) (by norm_num) (by norm_num)
      (fun m h1 h2 => by simp only [g3_eval]; simp; omega)]
  rw [mapRange_filter_peel_false (fun (m : Nat) => (((1 : Nat) : Int), (m : Int)))
      4 1436 1436 1440 0 (by norm_num) (by norm_num) (by norm_num)
      (fun m h1 h2 => by simp only [g3_eval]; simp; omega)]
  rw [mapRange_filter_peel_false (fun (m : Nat) => (((2 : Nat) : Int), (m : Int)))
      0 1440 2 2 1438 (by norm_num) (by norm_num) (by norm_num)
      (fun m h1 h2 => by simp only [g3_eval]; simp; omega)]
  rw [mapRange_filter_peel_true (fun (m : Nat) => (((2 : Nat) : Int), (m : Int)))
      2 1438 4 6 1434 (by norm_num) (by norm_num) (by norm_num)
      (fun m h1 h2 => by simp only [g3_eval]; simp; omega)]
  rw [mapRange_filter_peel_false (fun (m : Nat) => (((2 : Nat) : Int), (m : Int)))
      6 1434 1434 1440 0 (by norm_num) (by norm_num) (by norm_num)
      (fun m h1 h2 => by simp only [g3_eval]; simp; omega)]
  rw [mapRange_filter_peel_true (fun (m : Nat) => (((3 : Nat) : Int), (m : Int)))
      0 1440 6 6 1434 (by norm_num) (by norm_num) (by norm_num)
      (fun m h1 h2 => by simp only [g3_eval]; simp; omega)]
  rw [mapRange_filter_peel_false (fun (m : Nat) => (((3 : Nat) : Int), (m : Int)))
      6 1434 1434 1440 0 (by norm_num) (by norm_num) (by norm_num)
      (fun m h1 h2 => by simp only [g3_eval]; simp; omega)]
  rw [mapRange_filter_peel_false (fun (m : Nat) => (((4 : Nat) : Int), (m : Int)))
      0 1440 1440 1440 0 (by norm_num) (by norm_num) (by norm_num)
      (fun m h1 h2 => by simp [g3_eval])]
  rw [mapRange_filter_peel_false (fun (m : Nat) => (((5 : Nat) : Int), (m : Int)))
      0 1440 1440 1440 0 (by norm_num) (by norm_num) (by norm_num)
      (fun m h1 h2 => by simp [g3_eval])]
  rw [mapRange_filter_peel_false (fun (m : Nat) => (((6 : Nat) : Int), (m : Int)))
      0 1440 1440 1440 0 (by norm_num) (by norm_num) (by norm_num)
      (fun m h1 h2 => by simp [g3_eval])]
  decide

/-- Pointwise form of the boundary predicate of `extract_boundaries` on the
C3 grid: runs are `[0, 4)` on Monday, `[2, 6)` on Tuesday, `[0, 6)` on
Wednesday. -/
theorem qB3 (b : Int) (hb0 : 0 ≤ b) (hb1 : b ≤ 1440) :
    (decide (b = 0) || decide (b = 1440) ||
      (List.range 7).any fun (d : Nat) =>
        isRunStart (build_required_grid
            [⟨1440, 1444, ["B1"]⟩, ⟨2882, 2886, ["B2"]⟩, ⟨4320, 4326, ["B3"]⟩])
            (d : Int) b ||
          isRunEnd (build_required_grid
            [⟨1440, 1444, ["B1"]⟩, ⟨2882, 2886, ["B2"]⟩, ⟨4320, 4326, ["B3"]⟩])
            (d : Int) b)
      = decide (b = 0 ∨ b = 2 ∨ b = 4 ∨ b = 6 ∨ b = 1440) := by
  rw [show List.range 7 = [0, 1, 2, 3, 4, 5, 6] from rfl]
  simp only [List.any_cons, List.any_nil, isRunStart, isRunEnd, g3_eval,
    Bool.or_false]
  rw [Bool.eq_iff_iff]
  simp only [Bool.not_and, Bool.not_or, Bool.or_eq_true, Bool.and_eq_true,
    Bool.not_eq_true, Bool.not_eq_true', decide_eq_true_eq, decide_eq_false_iff_not]
  norm_num
  omega

/-- The boundary set of the C3 grid. -/
theorem bounds_g3 :
    extract_boundaries (build_required_grid
        [⟨1440, 1444, ["B1"]⟩, ⟨2882, 2886, ["B2"]⟩, ⟨4320, 4326, ["B3"]⟩])
      = [0, 2, 4, 6, 1440] := by
  simp only [extract_boundaries]
  rw [List.range_eq_range' 1441]
  rw [mapRange_filter_peel_true (fun (n : Nat) => (n : Int)) 0 1441 1 1 1440
      (by norm_num) (by norm_num) (by norm_num)
      (fun m h1 h2 => by
        have hq := qB3 (m : Int) (by omega) (by omega)
        simp only [hq]
        exact decide_eq_true (by omega))]
  rw [mapRange_filter_peel_false (fun (n : Nat) => (n : Int)) 1 1440 1 2 1439
      (by norm_num) (by norm_num) (by norm_num)
      (fun m h1 h2 => by
        have hq := qB3 (m : Int) (by omega) (by omega)
        simp only [hq]
        exact decide_eq_false (by omega))]
  rw [mapRange_filter_peel_true (fun (n : Nat) => (n : Int)) 2 1439 1 3 1438
      (by norm_num) (by norm_num) (by norm_num)
      (fun m h1 h2 => by
        have hq := qB3 (m : Int) (by omega) (by omega)
        simp only [hq]
        exact decide_eq_true (by omega))]
  rw [mapRange_filter_peel_false (fun (n : Nat) => (n : Int)) 3 1438 1 4 1437
      (by norm_num) (by norm_num) (by norm_num)
      (fun m h1 h2 => by
        have hq := qB3 (m : Int) (by omega) (by omega)
        simp only [hq]
        exact decide_eq_false (by omega))]
  rw [mapRange_filter_peel_true (fun (n : Nat) => (n : Int)) 4 1437 1 5 1436
      (by norm_num) (by norm_num) (by norm_num)
      (fun m h1 h2 => by
        have hq := qB3 (m : Int) (by omega) (by omega)
        simp only [hq]
        exact decide_eq_true (by omega))]
  rw [mapRange_filter_peel_false (fun (n : Nat) => (n : Int)) 5 1436 1 6 1435
      (by norm_num) (by norm_num) (by norm_num)
      (fun m h1 h2 => by
        have hq := qB3 (m : Int) (by omega) (by omega)
        simp only [hq]
        exact decide_eq_false (by omega))]
  rw [mapRange_filter_peel_true (fun (n : Nat) => (n : Int)) 6 1435 1 7 1434
      (by norm_num) (by norm_num) (by norm_num)
      (fun m h1 h2 => by
        have hq := qB3 (m : Int) (by omega) (by omega)
        simp only [hq]
        exact decide_eq_true (by omega))]
  rw [mapRange_filter_peel_false (fun (n : Nat) => (n : Int)) 7 1434 1433 1440 1
      (by norm_num) (by norm_num) (by norm_num)
      (fun m h1 h2 => by
        have hq := qB3 (m : Int) (by omega) (by omega)
        simp only [hq]
        exact decide_eq_false (by omega))]
  rw [mapRange_filter_peel_true (fun (n : Nat) => (n : Int)) 1440 1 1 1441 0
      (by norm_num) (by norm_num) (by norm_num)
      (fun m h1 h2 => by
        have hq := qB3 (m : Int) (by omega) (by omega)
        simp only [hq]
        exact decide_eq_true (by omega))]
  decide

/-- Concrete optimizer run for the C3 input: the greedy cover fits the three
naive windows into two rules. -/
theorem optimized_three_blocks_eval :
    build_weekly_template_optimized
        [⟨1440, 1444, ["B1"]⟩, ⟨2882, 2886, ["B2"]⟩, ⟨4320, 4326, ["B3"]⟩] 2
      = .ok [⟨1, 0, 4, 0, 1, 0, 1, 0, 0, 0, 0⟩,
          ⟨2, 2, 6, 0, 0, 1, 1, 0, 0, 0, 0⟩] := by
  rw [bwto_eq _ 2 _ _ cells_g3 bounds_g3]
  decide!

/-- Witness for C1: the single rule the optimizer emits for a lone Monday
00:02–00:05 interval only opens required minutes. -/
theorem optimizer_never_overopens_witness :
    build_required_grid [⟨1442, 1445, ["x"]⟩] 1 3 = true :=
  optimizer_never_overopens [⟨1442, 1445, ["x"]⟩] 3
    [⟨1, 2, 5, 0, 1, 0, 0, 0, 0, 0, 0⟩, ⟨2, 0, 0, 0, 0, 0, 0, 0, 0, 0, 0⟩,
      ⟨3, 0, 0, 0, 0, 0, 0, 0, 0, 0, 0⟩]
    optimized_single_interval_eval ⟨1, 2, 5, 0, 1, 0, 0, 0, 0, 0, 0⟩ (by decide)
    (by decide) 1 3 (by decide) (by decide) (by decide)

/-! ### C3: the naive-overflow fallback never runs -/

/-- C3 (evaluating the code at the failing input): with `optimize = false`
and a budget of 2, a week needing three distinct naive clock windows makes
`build_unlock_rows` terminate with the naive builder's capacity error — the
in-code `len(rows) > max_intervals` retry branch is unreachable because the
naive builder raises instead of returning oversized rows — even though
`build_weekly_template_optimized` covers the very same week within the
budget. -/
theorem naive_overflow_not_recovered :
    build_unlock_rows
        [⟨1440, 1444, ["B1"]⟩, ⟨2882, 2886, ["B2"]⟩, ⟨4320, 4326, ["B3"]⟩]
        { optimize := false, max_intervals := 2 }
      = .error (.naiveCapacity 3 [(0, 4), (0, 6), (2, 6)]) ∧
    build_weekly_template_optimized
        [⟨1440, 1444, ["B1"]⟩, ⟨2882, 2886, ["B2"]⟩, ⟨4320, 4326, ["B3"]⟩] 2
      = .ok [⟨1, 0, 4, 0, 1, 0, 1, 0, 0, 0, 0⟩,
          ⟨2, 2, 6, 0, 0, 1, 1, 0, 0, 0, 0⟩] := by
  constructor
  · rfl
  · exact optimized_three_blocks_eval

end UnlockSchedule
